import Mathlib

/-!
Verification development for the mysql binlog tailer
(src/binlog-tailer.js).  The byte cursor, file session and event
decoder are embedded as a small-step machine: `dispatch` models the
per-callback parser functions, `drive` models the `readChunk` loop
that repeatedly satisfies the single outstanding read from the known
file size, and `goFF` is an event-granularity description of the same
machine used to state stream-level properties.  Machine integers are
Nat; offsets use Nat subtraction, which agrees with the JavaScript
arithmetic whenever every declared event length is at least the
19-byte header (all well-formedness predicates below enforce this).
-/

set_option maxHeartbeats 1000000
set_option maxRecDepth 8192

namespace Binlog

/-- A byte buffer or byte stream: a list of byte values. -/
abbrev Buf := List Nat

/-- readInt from src/binlog-tailer.js: unsigned 32-bit little-endian
read at an offset.  JS `buffer[i]` out of range is undefined; decoded
streams keep every access in range, so the default 0 is never the
value actually used by any theorem below. -/
def readInt (b : Buf) (off : Nat) : Nat :=
  b.getD (off + 3) 0 * 16777216 + b.getD (off + 2) 0 * 65536 +
    b.getD (off + 1) 0 * 256 + b.getD off 0

/-- readSmallint from the source: unsigned 16-bit little-endian read. -/
def readSmallint (b : Buf) (off : Nat) : Nat :=
  b.getD (off + 1) 0 * 256 + b.getD off 0

/-- The bytes served by a physical read of `n` bytes at offset `off`
(fs.read at position `fileOffset` for `bytesWanted` bytes). -/
def readBytes (data : Buf) (off n : Nat) : Buf :=
  (data.drop off).take n

/-- Node's path.join as used by the tailer, modeled as directory ++
separator ++ name; every claim only needs that the same joined value
flows to the rotate notification and to the next session. -/
def pathJoin (dir name : Buf) : Buf :=
  dir ++ 47 :: name

/-- JS truthiness of the carry variables `lastInsertId` /
`autoIncrement`: they hold either undefined (none) or a number, and a
number is truthy exactly when it is nonzero. -/
def truthyO : Option Nat → Bool
  | none => false
  | some n => n != 0

/-- The fast-forward test `fastForwardUntil > fileOffset`: with
`fastForwardUntil` undefined (none) the comparison is false. -/
def ffHit (ffu : Option Nat) (off : Nat) : Bool :=
  match ffu with
  | none => false
  | some s => decide (off < s)

/-- The auto-increment carry attached to a published query
(the `meta` object built in parseQueryEvent). -/
structure Carry where
  lastInsertId : Option Nat
  autoIncrement : Option Nat
deriving DecidableEq, Repr

/-- The notifications published on the tailer (EventEmitter events
'log', 'query', 'stop', 'rotate', 'error').  Timestamps are the raw
32-bit header seconds (readTimestamp wraps the same value in a Date). -/
inductive Notif where
  | logStarted (ts : Nat) (file : Buf)
  | query (ts : Nat) (db : Buf) (text : Buf) (meta : Option Carry)
  | serverStopped (ts : Nat)
  | rotated (next : Buf)
  | errorN (msg : String)
deriving DecidableEq, Repr

/-- The pending continuation of the single outstanding read: which
parser callback `didReadCallback` currently points at.  `idleDone`
marks that the last callback issued no further `read` (the case after
parseStopEvent and after the default case of the expectEvent switch,
which only skips and breaks). -/
inductive DecCont where
  | magic
  | firstEvent
  | event
  | queryBody (ts : Nat) (len : Nat)
  | intvarBody
  | rotateBody
  | idleDone
deriving DecidableEq, Repr

/-- The mutable state closed over by one `stream` invocation: the
decoder continuation, the byte cursor fields `fileOffset`,
`bytesWanted`, `ready`, the carry variables, and whether `stop()` has
run (watch removed, handle closed). -/
structure MState where
  cont : DecCont
  fileOffset : Nat
  bytesWanted : Nat
  ready : Bool
  lastInsertId : Option Nat
  autoIncrement : Option Nat
  stopped : Bool
deriving DecidableEq, Repr

/-- Result of dispatching one completed read: either the callback
issued a further `read` (loop back into readChunk) or it left no read
outstanding (fatal error, rotate hand-off, a stop event, or the
default case of the expectEvent switch, which skips the unrecognized
event's body and breaks without calling expectEvent again). -/
inductive Dispatched where
  | next (st : MState) (ns : List Notif)
  | quiet (st : MState) (ns : List Notif)
deriving DecidableEq, Repr

/-- One parser callback, translated case by case from expectHeader /
expectFirstEvent / expectEvent / parseQueryEvent / parseAutoInt /
parseRotateEvent / parseStopEvent.  `st` is the machine state after
the read completed (`fileOffset` already advanced, `bytesWanted`
zeroed, `ready` true), `buf` the buffer handed to the callback. -/
def dispatch (base file : Buf) (ffu : Option Nat) (st : MState) (buf : Buf) :
    Dispatched :=
  match st.cont with
  | .magic =>
      if buf.getD 0 0 = 254 ∧ buf.getD 1 0 = 98 ∧ buf.getD 2 0 = 105 ∧
          buf.getD 3 0 = 110 then
        .next { st with cont := .firstEvent, bytesWanted := 19 } []
      else
        .quiet { st with ready := false, stopped := true }
          [.errorN "Invalid binlog"]
  | .firstEvent =>
      if buf.getD 4 0 = 15 then
        .next
          { st with
            cont := .event
            bytesWanted := 19
            fileOffset := st.fileOffset + (readInt buf 9 - 19) }
          [.logStarted (readInt buf 0) file]
      else
        .quiet { st with ready := false, stopped := true }
          [.errorN "Invalid binlog version"]
  | .event =>
      if buf.getD 4 0 = 2 then
        if ffHit ffu st.fileOffset then
          .next
            { st with
              cont := .event
              bytesWanted := 19
              fileOffset := st.fileOffset + (readInt buf 9 - 19) } []
        else
          .next
            { st with
              cont := .queryBody (readInt buf 0) (readInt buf 9)
              bytesWanted := readInt buf 9 - 19 } []
      else if buf.getD 4 0 = 3 then
        .quiet { st with cont := .idleDone }
          [.serverStopped (readInt buf 0)]
      else if buf.getD 4 0 = 4 then
        .next { st with cont := .rotateBody, bytesWanted := readInt buf 9 - 19 } []
      else if buf.getD 4 0 = 5 then
        .next { st with cont := .intvarBody, bytesWanted := 9 } []
      else
        .quiet
          { st with
            cont := .idleDone
            fileOffset := st.fileOffset + (readInt buf 9 - 19) } []
  | .queryBody ts _len =>
      let nameLen := buf.getD 8 0
      let statusLen := readSmallint buf 11
      let attach := truthyO st.lastInsertId || truthyO st.autoIncrement
      let meta : Option Carry :=
        if attach then some ⟨st.lastInsertId, st.autoIncrement⟩ else none
      let db := (buf.drop (13 + statusLen)).take (13 + statusLen + nameLen - (13 + statusLen))
      let q := buf.drop (14 + nameLen + statusLen)
      .next
        { st with
          cont := .event
          bytesWanted := 19
          lastInsertId := if attach then none else st.lastInsertId
          autoIncrement := if attach then none else st.autoIncrement }
        [.query ts db q meta]
  | .intvarBody =>
      if buf.getD 0 0 = 1 then
        .next
          { st with
            cont := .event
            bytesWanted := 19
            lastInsertId := some (readInt buf 1) } []
      else if buf.getD 0 0 = 2 then
        .next
          { st with
            cont := .event
            bytesWanted := 19
            autoIncrement := some (readInt buf 1) } []
      else
        .next { st with cont := .event, bytesWanted := 19 } []
  | .rotateBody =>
      .quiet { st with ready := false, stopped := true }
        [.rotated (pathJoin base (buf.drop 8))]
  | .idleDone =>
      .quiet st []

/-- Outcome of driving the readChunk loop to quiescence: final state,
notifications emitted on the tailer, the physical reads issued as
(offset, byte count) pairs, and whether the
`throw new Error('No bytes wanted?')` branch was taken. -/
structure DriveOut where
  st : MState
  notifs : List Notif
  reads : List (Nat × Nat)
  thrown : Bool
deriving DecidableEq, Repr

/-- The readChunk loop: the guards of readChunk followed, when a read
is possible, by the fs.read completion (advance `fileOffset`, zero
`bytesWanted`) and the synchronous parser callback, which may issue
the next read and re-enter readChunk.  `size` is the currently known
`stat.size`; fuel only bounds the recursion and is irrelevant once
large enough. -/
def drive (base file : Buf) (ffu : Option Nat) (data : Buf) (size : Nat) :
    Nat → MState → DriveOut
  | 0, st => ⟨st, [], [], false⟩
  | fuel + 1, st =>
      if st.ready = false then ⟨st, [], [], false⟩
      else if st.bytesWanted = 0 then ⟨st, [], [], true⟩
      else if size < st.fileOffset + st.bytesWanted then ⟨st, [], [], false⟩
      else
        let buf := readBytes data st.fileOffset st.bytesWanted
        let st1 : MState :=
          { st with
            fileOffset := st.fileOffset + st.bytesWanted
            bytesWanted := 0 }
        match dispatch base file ffu st1 buf with
        | .next st2 ns =>
            let out := drive base file ffu data size fuel st2
            ⟨out.st, ns ++ out.notifs,
              (st.fileOffset, st.bytesWanted) :: out.reads, out.thrown⟩
        | .quiet st2 ns =>
            ⟨st2, ns, [(st.fileOffset, st.bytesWanted)], false⟩

/-- Machine state when the session's first drive begins: `stream` has
already called expectHeader (read(4) recorded), then the stat and open
callbacks ran (`ready := true`, and `fastForwardUntil` fixed). -/
def initMState : MState :=
  ⟨.magic, 0, 4, true, none, none, false⟩

/-- One session driven over a file whose current content is `data`
and whose known size is `data.length`. -/
def runSession (base file : Buf) (ffu : Option Nat) (data : Buf) (fuel : Nat) :
    DriveOut :=
  drive base file ffu data data.length fuel initMState

/-- The fs.watchFile callback: the new stat is recorded and readChunk
re-entered from the quiescent state `st` with the grown content. -/
def onGrowth (base file : Buf) (ffu : Option Nat) (data : Buf) (fuel : Nat)
    (st : MState) : DriveOut :=
  drive base file ffu data data.length fuel st

/-- The fs.read error branch: `stop()` tears the session down, then
`return this.emit('error', err)` runs with `this` being the fs.read
callback's receiver, which under the file's "use strict" is undefined
rather than the tailer. -/
inductive Receiver where
  | tailer
  | undefinedThis
deriving DecidableEq, Repr

/-- Outcome of a failed physical read. -/
structure ReadErrOut where
  st : MState
  tailerNotifs : List Notif
  emitReceiver : Receiver
deriving DecidableEq, Repr

/-- The `if (err)` branch of the fs.read callback: stop() (unwatch,
close, ready := false), then the attempted `this.emit('error', err)`.
Since `this` is undefined in the strict-mode callback, nothing is
published on the tailer's channel; the read is not retried. -/
def onReadError (st : MState) : ReadErrOut :=
  ⟨{ st with ready := false, stopped := true }, [], .undefinedThis⟩

/-!
Well-formed byte streams.  The encoder below produces exactly the
binary layout of §6 of the format: a 19-byte little-endian common
header (timestamp, type code, server id, event length, next position,
flags) followed by the per-type body.  It defines what "well-formed
single-file binlog byte stream" means in the claims.
-/

/-- Little-endian 16-bit encoding. -/
def le16 (n : Nat) : Buf := [n % 256, n / 256 % 256]

/-- Little-endian 32-bit encoding. -/
def le32 (n : Nat) : Buf :=
  [n % 256, n / 256 % 256, n / 65536 % 256, n / 16777216 % 256]

/-- The 19-byte common event header: timestamp[0..3], type[4],
server id[5..8], event length[9..12], next position[13..16],
flags[17..18]; unused fields are zero. -/
def mkHeader (ts code len : Nat) : Buf :=
  [ts % 256, ts / 256 % 256, ts / 65536 % 256, ts / 16777216 % 256,
   code % 256, 0, 0, 0, 0,
   len % 256, len / 256 % 256, len / 65536 % 256, len / 16777216 % 256,
   0, 0, 0, 0, 0, 0]

/-- Abstract events of a well-formed stream.  `query` carries the
8 thread-id/exec-time bytes, the 2 error-code bytes, the status-vars
block, the schema name and the query text; `intvar` carries the
selector byte, the low 32-bit value and the 4 unread high bytes;
`other` is any structurally-skipped event type. -/
inductive BEvent where
  | query (ts : Nat) (pre8 : Buf) (err2 : Buf) (status : Buf) (db : Buf) (text : Buf)
  | stopEv (ts : Nat)
  | rotate (ts : Nat) (pos8 : Buf) (name : Buf)
  | intvar (ts : Nat) (sel : Nat) (val : Nat) (hi4 : Buf)
  | other (ts : Nat) (code : Nat) (body : Buf)
deriving DecidableEq, Repr

/-- Serialized size of an event (the header's event-length field). -/
def encSize : BEvent → Nat
  | .query _ _ _ status db text => 33 + status.length + db.length + text.length
  | .stopEv _ => 19
  | .rotate _ _ name => 27 + name.length
  | .intvar _ _ _ _ => 28
  | .other _ _ body => 19 + body.length

/-- Query event body: thread-id/exec-time bytes, schema-name length at
offset 8, error code, status-vars length at 11 (16-bit LE), status
vars, schema name, one null separator, query text. -/
def qBody (pre8 err2 status db text : Buf) : Buf :=
  pre8 ++ db.length :: (err2 ++ (le16 status.length ++ (status ++ (db ++ 0 :: text))))

/-- IntVar event body: selector byte, 32-bit LE value, 4 high bytes
the decoder reads but ignores. -/
def ivBody (sel v : Nat) (hi4 : Buf) : Buf :=
  sel :: (le32 v ++ hi4)

/-- Serialize one event: common header then body. -/
def encEvent : BEvent → Buf
  | .query ts pre8 err2 status db text =>
      mkHeader ts 2 (33 + status.length + db.length + text.length) ++
        qBody pre8 err2 status db text
  | .stopEv ts => mkHeader ts 3 19
  | .rotate ts pos8 name => mkHeader ts 4 (27 + name.length) ++ (pos8 ++ name)
  | .intvar ts sel v hi4 => mkHeader ts 5 28 ++ ivBody sel v hi4
  | .other ts code body => mkHeader ts code (19 + body.length) ++ body

/-- Serialize an event list. -/
def encEvents : List BEvent → Buf
  | [] => []
  | e :: rest => encEvent e ++ encEvents rest

/-- Total serialized size of an event list. -/
def sumSizes : List BEvent → Nat
  | [] => 0
  | e :: rest => encSize e + sumSizes rest

/-- The binlog magic bytes 0xFE 'b' 'i' 'n'. -/
def magic4 : Buf := [254, 98, 105, 110]

/-- A complete well-formed single-file stream: magic, a
format-description event (code 15) whose body is skipped, then the
events. -/
def encLog (fdTs : Nat) (fdBody : Buf) (evs : List BEvent) : Buf :=
  magic4 ++ (mkHeader fdTs 15 (19 + fdBody.length) ++ (fdBody ++ encEvents evs))

/-- Well-formedness of one event: field widths as the format fixes
them, and every multi-byte quantity within its field's range. -/
def wfEventB : BEvent → Bool
  | .query ts pre8 err2 status db text =>
      decide (ts < 4294967296) && decide (pre8.length = 8) &&
      decide (err2.length = 2) && decide (db.length < 256) &&
      decide (status.length < 65536) &&
      decide (33 + status.length + db.length + text.length < 4294967296)
  | .stopEv ts => decide (ts < 4294967296)
  | .rotate ts pos8 name =>
      decide (ts < 4294967296) && decide (pos8.length = 8) &&
      decide (27 + name.length < 4294967296)
  | .intvar ts sel v hi4 =>
      decide (ts < 4294967296) && decide (sel < 256) &&
      decide (v < 4294967296) && decide (hi4.length = 4)
  | .other ts code body =>
      decide (ts < 4294967296) && decide (code < 256) && code != 2 &&
      code != 3 && code != 4 && code != 5 &&
      decide (19 + body.length < 4294967296)

/-- Well-formedness of an event list. -/
def wfB (l : List BEvent) : Bool := l.all wfEventB

/-- Stop, Rotate and unrecognized events halt the decoding loop: only
the Query and IntVar callbacks call expectEvent again (parseStopEvent
emits and returns, a rotate hands the session off, and the default
case of the expectEvent switch only skips and breaks). -/
def isHaltingB : BEvent → Bool
  | .stopEv _ => true
  | .rotate _ _ _ => true
  | .other _ _ _ => true
  | _ => false

/-- No halting event in the list. -/
def noHaltB (l : List BEvent) : Bool := l.all (fun e => !isHaltingB e)

/-- Query event recognizer on abstract events. -/
def isQueryE : BEvent → Bool
  | .query _ _ _ _ _ _ => true
  | _ => false

/-- IntVar event recognizer on abstract events. -/
def isIntvarE : BEvent → Bool
  | .intvar _ _ _ _ => true
  | _ => false

/-- Stop event recognizer on abstract events. -/
def isStopE : BEvent → Bool
  | .stopEv _ => true
  | _ => false

/-- Query notification recognizer. -/
def isQueryN : Notif → Bool
  | .query _ _ _ _ => true
  | _ => false

/-- ServerStopped notification recognizer. -/
def isStoppedN : Notif → Bool
  | .serverStopped _ => true
  | _ => false

/-- LogStarted notification recognizer. -/
def isLogN : Notif → Bool
  | .logStarted _ _ => true
  | _ => false

/-!
Event-granularity description of the decoder.  `goFF` walks the
abstract event list exactly as the machine walks the bytes: the
fast-forward test happens at offset event-start + 19 (the header has
just been consumed when parseQueryEvent runs), a stop event or an
unrecognized event leaves the loop with no read outstanding, a rotate
event stops the session.
-/

/-- How a run of the decoding loop is left at quiescence. -/
inductive SEnd where
  | waiting
  | idle
  | rotatedTo (next : Buf)
deriving DecidableEq, Repr

/-- Event-level result: notifications, final logical offset, carry
variables, and how the loop was left. -/
structure SpecOut where
  notifs : List Notif
  off : Nat
  lastInsertId : Option Nat
  autoIncrement : Option Nat
  ending : SEnd
deriving DecidableEq, Repr

/-- The decoder at event granularity, starting in the ExpectEvent
state at offset `off` with carry `(lii, ai)`. -/
def goFF (base : Buf) (ffu : Option Nat) :
    List BEvent → Nat → Option Nat → Option Nat → SpecOut
  | [], off, lii, ai => ⟨[], off, lii, ai, .waiting⟩
  | .query ts _pre8 _err2 status db text :: rest, off, lii, ai =>
      let sz := 33 + status.length + db.length + text.length
      if ffHit ffu (off + 19) then
        goFF base ffu rest (off + sz) lii ai
      else
        let attach := truthyO lii || truthyO ai
        let meta : Option Carry := if attach then some ⟨lii, ai⟩ else none
        let r := goFF base ffu rest (off + sz)
          (if attach then none else lii) (if attach then none else ai)
        ⟨.query ts db text meta :: r.notifs, r.off,
          r.lastInsertId, r.autoIncrement, r.ending⟩
  | .stopEv ts :: _rest, off, lii, ai =>
      ⟨[.serverStopped ts], off + 19, lii, ai, .idle⟩
  | .rotate _ts _pos8 name :: _rest, off, lii, ai =>
      ⟨[.rotated (pathJoin base name)], off + 27 + name.length, lii, ai,
        .rotatedTo (pathJoin base name)⟩
  | .intvar _ts sel v _hi4 :: rest, off, lii, ai =>
      if sel = 1 then goFF base ffu rest (off + 28) (some v) ai
      else if sel = 2 then goFF base ffu rest (off + 28) lii (some v)
      else goFF base ffu rest (off + 28) lii ai
  | .other _ts _code body :: _rest, off, lii, ai =>
      ⟨[], off + 19 + body.length, lii, ai, .idle⟩

/-- The machine state the drive loop is left in for each event-level
ending. -/
def endState (r : SpecOut) : MState :=
  match r.ending with
  | .waiting => ⟨.event, r.off, 19, true, r.lastInsertId, r.autoIncrement, false⟩
  | .idle => ⟨.idleDone, r.off, 0, true, r.lastInsertId, r.autoIncrement, false⟩
  | .rotatedTo _ => ⟨.rotateBody, r.off, 0, false, r.lastInsertId, r.autoIncrement, true⟩

/-- The canonical inter-event machine state: ExpectEvent with the
19-byte header read outstanding. -/
def evState (off : Nat) (lii ai : Option Nat) : MState :=
  ⟨.event, off, 19, true, lii, ai, false⟩

/-! Access lemmas for byte buffers. -/

theorem getD_append_left {l m : Buf} {n : Nat} (h : n < l.length) :
    (l ++ m).getD n 0 = l.getD n 0 := by
  simp [List.getD_eq_getElem?_getD, List.getElem?_append_left h]

theorem getD_append_right {l m : Buf} {n : Nat} (h : l.length ≤ n) :
    (l ++ m).getD n 0 = m.getD (n - l.length) 0 := by
  simp [List.getD_eq_getElem?_getD, List.getElem?_append_right h]

theorem getD_drop (l : Buf) (n m : Nat) :
    (l.drop n).getD m 0 = l.getD (n + m) 0 := by
  induction n generalizing l with
  | zero => simp
  | succ k ih =>
      cases l with
      | nil => simp
      | cons a t =>
          have : k + 1 + m = (k + m) + 1 := by omega
          simp [this, ih t]

theorem mkHeader_length (ts code len : Nat) : (mkHeader ts code len).length = 19 := rfl

theorem readInt_mkHeader_ts {ts : Nat} (code len : Nat) (h : ts < 4294967296) :
    readInt (mkHeader ts code len) 0 = ts := by
  have e : readInt (mkHeader ts code len) 0 =
      ts / 16777216 % 256 * 16777216 + ts / 65536 % 256 * 65536 +
        ts / 256 % 256 * 256 + ts % 256 := rfl
  rw [e]; omega

theorem readInt_mkHeader_len (ts code : Nat) {len : Nat} (h : len < 4294967296) :
    readInt (mkHeader ts code len) 9 = len := by
  have e : readInt (mkHeader ts code len) 9 =
      len / 16777216 % 256 * 16777216 + len / 65536 % 256 * 65536 +
        len / 256 % 256 * 256 + len % 256 := rfl
  rw [e]; omega

theorem getD_mkHeader_code (ts : Nat) {code : Nat} (len : Nat) (h : code < 256) :
    (mkHeader ts code len).getD 4 0 = code := by
  have e : (mkHeader ts code len).getD 4 0 = code % 256 := rfl
  rw [e]; omega

theorem getD_of_drop (l : Buf) (n m k : Nat) (h : n + m = k) :
    l.getD k 0 = (l.drop n).getD m 0 := by
  subst h; exact (getD_drop l n m).symm

/-! Query body access lemmas. -/

theorem qBody_length {pre8 err2 : Buf} (status db text : Buf)
    (hp : pre8.length = 8) (he : err2.length = 2) :
    (qBody pre8 err2 status db text).length =
      14 + status.length + db.length + text.length := by
  simp [qBody, le16, hp, he]; omega

theorem qBody_drop11 {pre8 err2 : Buf} (status db text : Buf)
    (hp : pre8.length = 8) (he : err2.length = 2) :
    (qBody pre8 err2 status db text).drop 11 =
      le16 status.length ++ (status ++ (db ++ 0 :: text)) := by
  unfold qBody
  rw [show pre8 ++ db.length :: (err2 ++ (le16 status.length ++ (status ++ (db ++ 0 :: text)))) =
      (pre8 ++ db.length :: err2) ++ (le16 status.length ++ (status ++ (db ++ 0 :: text))) from by simp]
  exact List.drop_left' (by simp [hp, he])

theorem qBody_getD8 {pre8 : Buf} (err2 status db text : Buf) (hp : pre8.length = 8) :
    (qBody pre8 err2 status db text).getD 8 0 = db.length := by
  unfold qBody
  rw [getD_append_right (by omega)]
  simp [hp]

theorem qBody_smallint {pre8 err2 status : Buf} (db text : Buf)
    (hp : pre8.length = 8) (he : err2.length = 2) (hs : status.length < 65536) :
    readSmallint (qBody pre8 err2 status db text) 11 = status.length := by
  unfold readSmallint
  rw [getD_of_drop _ 11 1 (11 + 1) rfl, getD_of_drop _ 11 0 11 rfl,
    qBody_drop11 status db text hp he]
  have e1 : (le16 status.length ++ (status ++ (db ++ 0 :: text))).getD 1 0 =
      status.length / 256 % 256 := rfl
  have e0 : (le16 status.length ++ (status ++ (db ++ 0 :: text))).getD 0 0 =
      status.length % 256 := rfl
  rw [e1, e0]; omega

theorem qBody_drop13 {pre8 err2 : Buf} (status db text : Buf)
    (hp : pre8.length = 8) (he : err2.length = 2) :
    (qBody pre8 err2 status db text).drop (13 + status.length) = db ++ 0 :: text := by
  unfold qBody
  rw [show pre8 ++ db.length :: (err2 ++ (le16 status.length ++ (status ++ (db ++ 0 :: text)))) =
      (pre8 ++ db.length :: (err2 ++ (le16 status.length ++ status))) ++ (db ++ 0 :: text) from by simp]
  exact List.drop_left' (by simp [hp, he, le16]; omega)

theorem qBody_dropText {pre8 err2 : Buf} (status db text : Buf)
    (hp : pre8.length = 8) (he : err2.length = 2) :
    (qBody pre8 err2 status db text).drop (14 + db.length + status.length) = text := by
  unfold qBody
  rw [show pre8 ++ db.length :: (err2 ++ (le16 status.length ++ (status ++ (db ++ 0 :: text)))) =
      (pre8 ++ db.length :: (err2 ++ (le16 status.length ++ (status ++ (db ++ [0]))))) ++ text from by simp]
  exact List.drop_left' (by simp [hp, he, le16]; omega)

/-! IntVar body access lemmas. -/

theorem ivBody_getD0 (sel v : Nat) (hi4 : Buf) :
    (ivBody sel v hi4).getD 0 0 = sel := rfl

theorem ivBody_readInt {v : Nat} (sel : Nat) (hi4 : Buf) (h : v < 4294967296) :
    readInt (ivBody sel v hi4) 1 = v := by
  have e : readInt (ivBody sel v hi4) 1 =
      v / 16777216 % 256 * 16777216 + v / 65536 % 256 * 65536 +
        v / 256 % 256 * 256 + v % 256 := rfl
  rw [e]; omega

/-! Header/body splitting of a serialized event sitting at the front
of the remaining stream. -/

theorem take19_hdr (a b c : Nat) (body rest : Buf) :
    ((mkHeader a b c ++ body) ++ rest).take 19 = mkHeader a b c := by
  rw [List.append_assoc]
  exact List.take_left' (mkHeader_length a b c)

theorem drop19_hdr (a b c : Nat) (body rest : Buf) :
    ((mkHeader a b c ++ body) ++ rest).drop 19 = body ++ rest := by
  rw [List.append_assoc]
  exact List.drop_left' (mkHeader_length a b c)

theorem take_body {body : Buf} (rest : Buf) {n : Nat} (h : body.length = n) :
    (body ++ rest).take n = body := List.take_left' h

theorem drop_body {body : Buf} (rest : Buf) {n : Nat} (h : body.length = n) :
    (body ++ rest).drop n = rest := List.drop_left' h

/-! Sizes of serialized events. -/

theorem encSize_ge19 (e : BEvent) : 19 ≤ encSize e := by
  cases e <;> simp [encSize] <;> omega

theorem encEvent_length (e : BEvent) (hw : wfEventB e = true) :
    (encEvent e).length = encSize e := by
  cases e with
  | query ts pre8 err2 status db text =>
      simp only [wfEventB, Bool.and_eq_true, decide_eq_true_eq] at hw
      obtain ⟨⟨⟨⟨⟨h1, h2⟩, h3⟩, h4⟩, h5⟩, h6⟩ := hw
      simp [encEvent, encSize, mkHeader_length, qBody_length status db text h2 h3]
      omega
  | stopEv ts => rfl
  | rotate ts pos8 name =>
      simp only [wfEventB, Bool.and_eq_true, decide_eq_true_eq] at hw
      obtain ⟨⟨h1, h2⟩, h3⟩ := hw
      simp [encEvent, encSize, mkHeader_length, h2]
      omega
  | intvar ts sel v hi4 =>
      simp only [wfEventB, Bool.and_eq_true, decide_eq_true_eq] at hw
      obtain ⟨⟨⟨h1, h2⟩, h3⟩, h4⟩ := hw
      simp [encEvent, encSize, mkHeader_length, ivBody, le32, h4]
  | other ts code body =>
      simp [encEvent, encSize, mkHeader_length]

theorem encEvents_cons (e : BEvent) (rest : List BEvent) :
    encEvents (e :: rest) = encEvent e ++ encEvents rest := rfl

theorem encEvents_append (l₁ l₂ : List BEvent) :
    encEvents (l₁ ++ l₂) = encEvents l₁ ++ encEvents l₂ := by
  induction l₁ with
  | nil => rfl
  | cons e t ih => simp [encEvents, ih]

theorem encEvents_length (l : List BEvent) (hw : wfB l = true) :
    (encEvents l).length = sumSizes l := by
  induction l with
  | nil => rfl
  | cons e t ih =>
      simp only [wfB, List.all_cons, Bool.and_eq_true] at hw
      simp [encEvents, sumSizes, encEvent_length e hw.1, ih hw.2]

theorem encLog_length (fdTs : Nat) (fdBody : Buf) (evs : List BEvent)
    (hw : wfB evs = true) :
    (encLog fdTs fdBody evs).length = 23 + fdBody.length + sumSizes evs := by
  simp [encLog, magic4, mkHeader_length, encEvents_length evs hw]
  omega

/-- Agreement between one quiescent run of the readChunk loop and the
event-level description. -/
def agrees (d : DriveOut) (g : SpecOut) : Prop :=
  d.st = endState g ∧ d.notifs = g.notifs ∧ d.thrown = false

theorem endState_mk (ns : List Notif) (r : SpecOut) :
    endState ⟨ns, r.off, r.lastInsertId, r.autoIncrement, r.ending⟩ = endState r := by
  cases r with
  | mk ns2 o l a e => cases e <;> rfl


theorem drive_sim (base file : Buf) (ffu : Option Nat) (data : Buf) :
    ∀ (evs : List BEvent) (off : Nat) (lii ai : Option Nat) (fuel : Nat),
    wfB evs = true →
    data.drop off = encEvents evs →
    2 * evs.length + 1 ≤ fuel →
    agrees (drive base file ffu data data.length fuel (evState off lii ai))
      (goFF base ffu evs off lii ai) := by
  intro evs
  induction evs with
  | nil =>
      intro off lii ai fuel hwf hdrop hfuel
      obtain ⟨f, rfl⟩ : ∃ f, fuel = f + 1 := ⟨fuel - 1, by omega⟩
      have hoff : data.length ≤ off := List.drop_eq_nil_iff.mp hdrop
      simp only [drive, evState]
      rw [if_neg (by simp), if_neg (by simp), if_pos (by omega : data.length < off + 19)]
      simp [agrees, goFF, endState, evState]
  | cons e rest ih =>
      intro off lii ai fuel hwf hdrop hfuel
      have hwe : wfEventB e = true := by
        simp only [wfB, List.all_cons, Bool.and_eq_true] at hwf; exact hwf.1
      have hwr : wfB rest = true := by
        simp only [wfB, List.all_cons, Bool.and_eq_true] at hwf; exact hwf.2
      have hlen : data.length - off = encSize e + (encEvents rest).length := by
        have h := congrArg List.length hdrop
        simpa [encEvents, encEvent_length e hwe] using h
      have hsz19 : 19 ≤ encSize e := encSize_ge19 e
      have havail : off + encSize e ≤ data.length := by omega
      have hdropNext : data.drop (off + encSize e) = encEvents rest := by
        have h : (data.drop off).drop (encSize e) = encEvents rest := by
          rw [hdrop]
          show (encEvent e ++ encEvents rest).drop (encSize e) = encEvents rest
          exact drop_body _ (encEvent_length e hwe)
        rwa [List.drop_drop] at h
      obtain ⟨f, rfl⟩ : ∃ f, fuel = f + 1 := ⟨fuel - 1, by omega⟩
      have hfuel' : 2 * rest.length + 2 ≤ f := by
        simp only [List.length_cons] at hfuel; omega
      cases e with
      | query ts pre8 err2 status db text =>
          simp only [wfEventB, Bool.and_eq_true, decide_eq_true_eq] at hwe
          obtain ⟨⟨⟨⟨⟨h1, h2⟩, h3⟩, h4⟩, h5⟩, h6⟩ := hwe
          simp only [encSize] at hlen havail hdropNext
          have hbuf : readBytes data off 19 =
              mkHeader ts 2 (33 + status.length + db.length + text.length) := by
            rw [readBytes, hdrop]
            show ((mkHeader ts 2 (33 + status.length + db.length + text.length) ++
                qBody pre8 err2 status db text) ++ encEvents rest).take 19 = _
            exact take19_hdr _ _ _ _ _
          simp only [drive, evState]
          rw [if_neg (by simp), if_neg (by simp),
            if_neg (by omega : ¬ data.length < off + 19)]
          rw [hbuf]
          by_cases hff : ffHit ffu (off + 19) = true
          · -- fast-forward branch: skip the body, no notification
            have hdisp : dispatch base file ffu
                ⟨.event, off + 19, 0, true, lii, ai, false⟩
                (mkHeader ts 2 (33 + status.length + db.length + text.length)) =
                .next ⟨.event, off + 19 + (33 + status.length + db.length + text.length - 19),
                  19, true, lii, ai, false⟩ [] := by
              simp only [dispatch]
              rw [getD_mkHeader_code ts _ (show (2:Nat) < 256 by omega),
                readInt_mkHeader_len ts 2 h6]
              simp [hff]
            rw [hdisp]
            have hrec := ih (off + (33 + status.length + db.length + text.length)) lii ai f
              hwr hdropNext (by omega)
            rw [show off + 19 + (33 + status.length + db.length + text.length - 19) =
              off + (33 + status.length + db.length + text.length) from by omega]
            simp only [agrees, evState] at hrec ⊢
            simp only [goFF, hff, if_true]
            exact ⟨hrec.1, by simpa using hrec.2.1, hrec.2.2⟩
          · -- publish branch: read the body and emit the query notification
            have hffF : ffHit ffu (off + 19) = false := by
              cases hq : ffHit ffu (off + 19) <;> simp_all
            have hdisp : dispatch base file ffu
                ⟨.event, off + 19, 0, true, lii, ai, false⟩
                (mkHeader ts 2 (33 + status.length + db.length + text.length)) =
                .next ⟨.queryBody ts (33 + status.length + db.length + text.length),
                  off + 19, 33 + status.length + db.length + text.length - 19,
                  true, lii, ai, false⟩ [] := by
              simp only [dispatch]
              rw [getD_mkHeader_code ts _ (show (2:Nat) < 256 by omega),
                readInt_mkHeader_len ts 2 h6, readInt_mkHeader_ts 2 _ h1]
              simp [hffF]
            rw [hdisp]
            obtain ⟨f', rfl⟩ : ∃ f', f = f' + 1 := ⟨f - 1, by omega⟩
            have hbody : readBytes data (off + 19)
                (33 + status.length + db.length + text.length - 19) =
                qBody pre8 err2 status db text := by
              rw [readBytes]
              have hd : data.drop (off + 19) =
                  qBody pre8 err2 status db text ++ encEvents rest := by
                have h0 : (data.drop off).drop 19 =
                    qBody pre8 err2 status db text ++ encEvents rest := by
                  rw [hdrop]
                  show ((mkHeader ts 2 (33 + status.length + db.length + text.length) ++
                      qBody pre8 err2 status db text) ++ encEvents rest).drop 19 = _
                  exact drop19_hdr _ _ _ _ _
                rwa [List.drop_drop] at h0
              rw [hd, show 33 + status.length + db.length + text.length - 19 =
                14 + status.length + db.length + text.length from by omega]
              exact take_body _ (qBody_length status db text h2 h3)
            simp only [drive]
            rw [if_neg (by simp), if_neg (by omega),
              if_neg (by omega)]
            rw [hbody]
            have hdisp2 : dispatch base file ffu
                ⟨.queryBody ts (33 + status.length + db.length + text.length),
                  off + 19 + (33 + status.length + db.length + text.length - 19),
                  0, true, lii, ai, false⟩
                (qBody pre8 err2 status db text) =
                .next ⟨.event,
                  off + 19 + (33 + status.length + db.length + text.length - 19),
                  19, true,
                  (if truthyO lii || truthyO ai then none else lii),
                  (if truthyO lii || truthyO ai then none else ai), false⟩
                  [.query ts db text
                    (if truthyO lii || truthyO ai then some ⟨lii, ai⟩ else none)] := by
              simp only [dispatch]
              rw [qBody_getD8 err2 status db text h2,
                qBody_smallint db text h2 h3 h5]
              rw [show 13 + status.length + db.length - (13 + status.length) = db.length
                from by omega]
              rw [qBody_drop13 status db text h2 h3,
                qBody_dropText status db text h2 h3]
              rw [take_body _ rfl]
            rw [hdisp2]
            rw [show off + 19 + (33 + status.length + db.length + text.length - 19) =
              off + (33 + status.length + db.length + text.length) from by omega]
            have hrec := ih (off + (33 + status.length + db.length + text.length))
              (if truthyO lii || truthyO ai then none else lii)
              (if truthyO lii || truthyO ai then none else ai) f'
              hwr hdropNext (by omega)
            simp only [agrees, evState] at hrec ⊢
            simp only [goFF, hffF, Bool.false_eq_true, if_false]
            simp only [Bool.or_eq_true] at hrec ⊢
            rw [endState_mk]
            exact ⟨hrec.1, by simp [hrec.2.1], hrec.2.2⟩
      | stopEv ts =>
          simp only [wfEventB, decide_eq_true_eq] at hwe
          simp only [encSize] at hlen havail hdropNext
          have hbuf : readBytes data off 19 = mkHeader ts 3 19 := by
            rw [readBytes, hdrop]
            show (mkHeader ts 3 19 ++ encEvents rest).take 19 = _
            exact List.take_left' (mkHeader_length _ _ _)
          simp only [drive, evState]
          rw [if_neg (by simp), if_neg (by simp),
            if_neg (by omega : ¬ data.length < off + 19)]
          rw [hbuf]
          have hdisp : dispatch base file ffu
              ⟨.event, off + 19, 0, true, lii, ai, false⟩ (mkHeader ts 3 19) =
              .quiet ⟨.idleDone, off + 19, 0, true, lii, ai, false⟩
                [.serverStopped ts] := by
            simp only [dispatch]
            rw [getD_mkHeader_code ts _ (show (3:Nat) < 256 by omega),
              readInt_mkHeader_ts 3 19 hwe]
            simp
          rw [hdisp]
          simp [agrees, goFF, endState]
      | rotate ts pos8 name =>
          simp only [wfEventB, Bool.and_eq_true, decide_eq_true_eq] at hwe
          obtain ⟨⟨h1, h2⟩, h3⟩ := hwe
          simp only [encSize] at hlen havail hdropNext
          have hbuf : readBytes data off 19 = mkHeader ts 4 (27 + name.length) := by
            rw [readBytes, hdrop]
            show ((mkHeader ts 4 (27 + name.length) ++ (pos8 ++ name)) ++
              encEvents rest).take 19 = _
            exact take19_hdr _ _ _ _ _
          simp only [drive, evState]
          rw [if_neg (by simp), if_neg (by simp),
            if_neg (by omega : ¬ data.length < off + 19)]
          rw [hbuf]
          have hdisp : dispatch base file ffu
              ⟨.event, off + 19, 0, true, lii, ai, false⟩
              (mkHeader ts 4 (27 + name.length)) =
              .next ⟨.rotateBody, off + 19, 27 + name.length - 19, true,
                lii, ai, false⟩ [] := by
            simp only [dispatch]
            rw [getD_mkHeader_code ts _ (show (4:Nat) < 256 by omega),
              readInt_mkHeader_len ts 4 h3]
            simp
          rw [hdisp]
          obtain ⟨f', rfl⟩ : ∃ f', f = f' + 1 := ⟨f - 1, by omega⟩
          have hbody : readBytes data (off + 19) (27 + name.length - 19) =
              pos8 ++ name := by
            rw [readBytes]
            have hd : data.drop (off + 19) = (pos8 ++ name) ++ encEvents rest := by
              have h0 : (data.drop off).drop 19 = (pos8 ++ name) ++ encEvents rest := by
                rw [hdrop]
                show ((mkHeader ts 4 (27 + name.length) ++ (pos8 ++ name)) ++
                  encEvents rest).drop 19 = _
                exact drop19_hdr _ _ _ _ _
              rwa [List.drop_drop] at h0
            rw [hd]
            exact take_body _ (by simp [h2]; omega)
          simp only [drive]
          rw [if_neg (by simp), if_neg (by omega), if_neg (by omega)]
          rw [hbody]
          have hdisp2 : dispatch base file ffu
              ⟨.rotateBody, off + 19 + (27 + name.length - 19), 0, true,
                lii, ai, false⟩ (pos8 ++ name) =
              .quiet ⟨.rotateBody, off + 19 + (27 + name.length - 19), 0, false,
                lii, ai, true⟩ [.rotated (pathJoin base name)] := by
            simp only [dispatch]
            rw [List.drop_left' h2]
          rw [hdisp2]
          rw [show off + 19 + (27 + name.length - 19) = off + 27 + name.length
            from by omega]
          simp [agrees, goFF, endState]
      | intvar ts sel v hi4 =>
          simp only [wfEventB, Bool.and_eq_true, decide_eq_true_eq] at hwe
          obtain ⟨⟨⟨h1, h2⟩, h3⟩, h4⟩ := hwe
          simp only [encSize] at hlen havail hdropNext
          have hbuf : readBytes data off 19 = mkHeader ts 5 28 := by
            rw [readBytes, hdrop]
            show ((mkHeader ts 5 28 ++ ivBody sel v hi4) ++ encEvents rest).take 19 = _
            exact take19_hdr _ _ _ _ _
          simp only [drive, evState]
          rw [if_neg (by simp), if_neg (by simp),
            if_neg (by omega : ¬ data.length < off + 19)]
          rw [hbuf]
          have hdisp : dispatch base file ffu
              ⟨.event, off + 19, 0, true, lii, ai, false⟩ (mkHeader ts 5 28) =
              .next ⟨.intvarBody, off + 19, 9, true, lii, ai, false⟩ [] := by
            simp only [dispatch]
            rw [getD_mkHeader_code ts _ (show (5:Nat) < 256 by omega)]
            simp
          rw [hdisp]
          obtain ⟨f', rfl⟩ : ∃ f', f = f' + 1 := ⟨f - 1, by omega⟩
          have hbody : readBytes data (off + 19) 9 = ivBody sel v hi4 := by
            rw [readBytes]
            have hd : data.drop (off + 19) = ivBody sel v hi4 ++ encEvents rest := by
              have h0 : (data.drop off).drop 19 = ivBody sel v hi4 ++ encEvents rest := by
                rw [hdrop]
                show ((mkHeader ts 5 28 ++ ivBody sel v hi4) ++ encEvents rest).drop 19 = _
                exact drop19_hdr _ _ _ _ _
              rwa [List.drop_drop] at h0
            rw [hd]
            exact take_body _ (by simp [ivBody, le32, h4])
          simp only [drive]
          rw [if_neg (by simp), if_neg (by omega), if_neg (by omega)]
          rw [hbody]
          have hrecOf : ∀ l2 a2, agrees (drive base file ffu data data.length f'
              (evState (off + 28) l2 a2)) (goFF base ffu rest (off + 28) l2 a2) :=
            fun l2 a2 => ih (off + 28) l2 a2 f' hwr hdropNext (by omega)
          by_cases hs1 : sel = 1
          · have hdisp2 : dispatch base file ffu
                ⟨.intvarBody, off + 19 + 9, 0, true, lii, ai, false⟩
                (ivBody sel v hi4) =
                .next ⟨.event, off + 19 + 9, 19, true, some v, ai, false⟩ [] := by
              simp only [dispatch]
              rw [ivBody_getD0, ivBody_readInt sel hi4 h3]
              simp [hs1]
            rw [hdisp2]
            rw [show off + 19 + 9 = off + 28 from by omega]
            have hrec := hrecOf (some v) ai
            simp only [agrees, evState] at hrec ⊢
            simp only [goFF, hs1, if_true]
            exact ⟨hrec.1, by simpa using hrec.2.1, hrec.2.2⟩
          · by_cases hs2 : sel = 2
            · have hdisp2 : dispatch base file ffu
                  ⟨.intvarBody, off + 19 + 9, 0, true, lii, ai, false⟩
                  (ivBody sel v hi4) =
                  .next ⟨.event, off + 19 + 9, 19, true, lii, some v, false⟩ [] := by
                simp only [dispatch]
                rw [ivBody_getD0, ivBody_readInt sel hi4 h3]
                simp [hs1, hs2]
              rw [hdisp2]
              rw [show off + 19 + 9 = off + 28 from by omega]
              have hrec := hrecOf lii (some v)
              simp only [agrees, evState] at hrec ⊢
              simp only [goFF, hs1, hs2, if_true, if_false]
              exact ⟨hrec.1, by simpa using hrec.2.1, hrec.2.2⟩
            · have hdisp2 : dispatch base file ffu
                  ⟨.intvarBody, off + 19 + 9, 0, true, lii, ai, false⟩
                  (ivBody sel v hi4) =
                  .next ⟨.event, off + 19 + 9, 19, true, lii, ai, false⟩ [] := by
                simp only [dispatch]
                rw [ivBody_getD0]
                simp [hs1, hs2]
              rw [hdisp2]
              rw [show off + 19 + 9 = off + 28 from by omega]
              have hrec := hrecOf lii ai
              simp only [agrees, evState] at hrec ⊢
              simp only [goFF, hs1, hs2, if_false]
              exact ⟨hrec.1, by simpa using hrec.2.1, hrec.2.2⟩
      | other ts code body =>
          simp only [wfEventB, Bool.and_eq_true, decide_eq_true_eq, bne_iff_ne,
            ne_eq] at hwe
          obtain ⟨⟨⟨⟨⟨⟨h1, h2⟩, hc2⟩, hc3⟩, hc4⟩, hc5⟩, h3⟩ := hwe
          simp only [encSize] at hlen havail hdropNext
          have hbuf : readBytes data off 19 = mkHeader ts code (19 + body.length) := by
            rw [readBytes, hdrop]
            show ((mkHeader ts code (19 + body.length) ++ body) ++
              encEvents rest).take 19 = _
            exact take19_hdr _ _ _ _ _
          simp only [drive, evState]
          rw [if_neg (by simp), if_neg (by simp),
            if_neg (by omega : ¬ data.length < off + 19)]
          rw [hbuf]
          have hdisp : dispatch base file ffu
              ⟨.event, off + 19, 0, true, lii, ai, false⟩
              (mkHeader ts code (19 + body.length)) =
              .quiet ⟨.idleDone, off + 19 + (19 + body.length - 19), 0, true,
                lii, ai, false⟩ [] := by
            simp only [dispatch]
            rw [getD_mkHeader_code ts _ h2, readInt_mkHeader_len ts code h3]
            rw [if_neg hc2, if_neg hc3, if_neg hc4, if_neg hc5]
          rw [hdisp]
          rw [show off + 19 + (19 + body.length - 19) = off + 19 + body.length
            from by omega]
          simp [agrees, goFF, endState]


/-- Event-level description of a whole session over a complete
well-formed file: one LogStarted, then the events from offset
23 + fdBody.length. -/
def sessionSpec (base file : Buf) (ffu : Option Nat) (fdTs : Nat) (fdBody : Buf)
    (evs : List BEvent) : SpecOut :=
  let r := goFF base ffu evs (23 + fdBody.length) none none
  ⟨.logStarted fdTs file :: r.notifs, r.off, r.lastInsertId, r.autoIncrement, r.ending⟩

theorem runSession_sim (base file : Buf) (ffu : Option Nat)
    (fdTs : Nat) (fdBody : Buf) (evs : List BEvent) (fuel : Nat)
    (hts : fdTs < 4294967296)
    (hfd : 19 + fdBody.length < 4294967296)
    (hwf : wfB evs = true)
    (hfuel : 2 * evs.length + 3 ≤ fuel) :
    agrees (runSession base file ffu (encLog fdTs fdBody evs) fuel)
      (sessionSpec base file ffu fdTs fdBody evs) := by
  have hdl : (encLog fdTs fdBody evs).length = 23 + fdBody.length + sumSizes evs :=
    encLog_length fdTs fdBody evs hwf
  obtain ⟨f, rfl⟩ : ∃ f, fuel = f + 1 := ⟨fuel - 1, by omega⟩
  rw [runSession]
  simp only [drive, initMState]
  rw [if_neg (by simp), if_neg (by simp),
    if_neg (by omega : ¬ (encLog fdTs fdBody evs).length < 0 + 4)]
  have hbuf : readBytes (encLog fdTs fdBody evs) 0 4 = magic4 := by
    rw [readBytes, List.drop_zero, encLog]
    exact List.take_left' rfl
  rw [hbuf]
  have hdisp : dispatch base file ffu ⟨.magic, 0 + 4, 0, true, none, none, false⟩
      magic4 = .next ⟨.firstEvent, 0 + 4, 19, true, none, none, false⟩ [] := by
    simp [dispatch, magic4]
  rw [hdisp]
  obtain ⟨f', rfl⟩ : ∃ f', f = f' + 1 := ⟨f - 1, by omega⟩
  simp only [drive]
  rw [if_neg (by simp), if_neg (by omega), if_neg (by omega)]
  have hbuf2 : readBytes (encLog fdTs fdBody evs) (0 + 4) 19 =
      mkHeader fdTs 15 (19 + fdBody.length) := by
    rw [readBytes, encLog]
    rw [show (0 + 4 : Nat) = ([254, 98, 105, 110] : Buf).length from rfl]
    rw [show (magic4 : Buf) = ([254, 98, 105, 110] : Buf) from rfl]
    rw [List.drop_left]
    exact List.take_left' (mkHeader_length _ _ _)
  rw [hbuf2]
  have hdisp2 : dispatch base file ffu
      ⟨.firstEvent, 0 + 4 + 19, 0, true, none, none, false⟩
      (mkHeader fdTs 15 (19 + fdBody.length)) =
      .next ⟨.event, 0 + 4 + 19 + (19 + fdBody.length - 19), 19, true,
        none, none, false⟩ [.logStarted fdTs file] := by
    simp only [dispatch]
    rw [getD_mkHeader_code fdTs _ (show (15:Nat) < 256 by omega),
      readInt_mkHeader_len fdTs 15 hfd, readInt_mkHeader_ts 15 _ hts]
    simp
  rw [hdisp2]
  rw [show 0 + 4 + 19 + (19 + fdBody.length - 19) = 23 + fdBody.length
    from by omega]
  have hdrop : (encLog fdTs fdBody evs).drop (23 + fdBody.length) =
      encEvents evs := by
    rw [show encLog fdTs fdBody evs =
      (magic4 ++ (mkHeader fdTs 15 (19 + fdBody.length) ++ fdBody)) ++ encEvents evs
      from by simp [encLog]]
    exact List.drop_left' (by simp [magic4, mkHeader_length]; omega)
  have hrec := drive_sim base file ffu (encLog fdTs fdBody evs) evs
    (23 + fdBody.length) none none f' hwf hdrop (by omega)
  simp only [agrees, evState] at hrec ⊢
  simp only [sessionSpec]
  rw [endState_mk]
  exact ⟨hrec.1, by simp [hrec.2.1], hrec.2.2⟩

/-! Event-level lemmas used by the claim theorems. -/

/-- No IntVar event in the list. -/
def noIntvarB (l : List BEvent) : Bool := l.all (fun e => !isIntvarE e)

theorem goFF_ending_off (base : Buf) (ffu : Option Nat) :
    ∀ (evs : List BEvent) (off : Nat) (lii ai : Option Nat),
    noHaltB evs = true →
    (goFF base ffu evs off lii ai).ending = .waiting ∧
    (goFF base ffu evs off lii ai).off = off + sumSizes evs := by
  intro evs
  induction evs with
  | nil => intro off lii ai h; simp [goFF, sumSizes]
  | cons e rest ih =>
      intro off lii ai h
      simp only [noHaltB, List.all_cons, Bool.and_eq_true, Bool.not_eq_eq_eq_not,
        Bool.not_true] at h
      cases e with
      | query ts pre8 err2 status db text =>
          by_cases hff : ffHit ffu (off + 19) = true
          · simp only [goFF, hff, if_true]
            have := ih (off + (33 + status.length + db.length + text.length)) lii ai
              (by simp [noHaltB, h.2])
            simp only [sumSizes, encSize]
            constructor
            · exact this.1
            · rw [this.2]; omega
          · have hffF : ffHit ffu (off + 19) = false := by
              cases hq : ffHit ffu (off + 19) <;> simp_all
            simp only [goFF, hffF, Bool.false_eq_true, if_false]
            have := ih (off + (33 + status.length + db.length + text.length))
              (if truthyO lii || truthyO ai then none else lii)
              (if truthyO lii || truthyO ai then none else ai)
              (by simp [noHaltB, h.2])
            simp only [sumSizes, encSize]
            constructor
            · exact this.1
            · rw [this.2]; omega
      | stopEv ts => simp [isHaltingB] at h
      | rotate ts pos8 name => simp [isHaltingB] at h
      | intvar ts sel v hi4 =>
          have hrest : noHaltB rest = true := by simp [noHaltB, h.2]
          by_cases hs1 : sel = 1
          · simp only [goFF]
            rw [if_pos hs1]
            have := ih (off + 28) (some v) ai hrest
            simp only [sumSizes, encSize]
            exact ⟨this.1, by rw [this.2]; omega⟩
          · by_cases hs2 : sel = 2
            · simp only [goFF]
              rw [if_neg hs1, if_pos hs2]
              have := ih (off + 28) lii (some v) hrest
              simp only [sumSizes, encSize]
              exact ⟨this.1, by rw [this.2]; omega⟩
            · simp only [goFF]
              rw [if_neg hs1, if_neg hs2]
              have := ih (off + 28) lii ai hrest
              simp only [sumSizes, encSize]
              exact ⟨this.1, by rw [this.2]; omega⟩
      | other ts code body => simp [isHaltingB] at h

theorem goFF_append (base : Buf) (ffu : Option Nat) :
    ∀ (xs ys : List BEvent) (off : Nat) (lii ai : Option Nat),
    noHaltB xs = true →
    goFF base ffu (xs ++ ys) off lii ai =
      ⟨(goFF base ffu xs off lii ai).notifs ++
        (goFF base ffu ys (goFF base ffu xs off lii ai).off
          (goFF base ffu xs off lii ai).lastInsertId
          (goFF base ffu xs off lii ai).autoIncrement).notifs,
       (goFF base ffu ys (goFF base ffu xs off lii ai).off
          (goFF base ffu xs off lii ai).lastInsertId
          (goFF base ffu xs off lii ai).autoIncrement).off,
       (goFF base ffu ys (goFF base ffu xs off lii ai).off
          (goFF base ffu xs off lii ai).lastInsertId
          (goFF base ffu xs off lii ai).autoIncrement).lastInsertId,
       (goFF base ffu ys (goFF base ffu xs off lii ai).off
          (goFF base ffu xs off lii ai).lastInsertId
          (goFF base ffu xs off lii ai).autoIncrement).autoIncrement,
       (goFF base ffu ys (goFF base ffu xs off lii ai).off
          (goFF base ffu xs off lii ai).lastInsertId
          (goFF base ffu xs off lii ai).autoIncrement).ending⟩ := by
  intro xs
  induction xs with
  | nil => intro ys off lii ai h; simp [goFF]
  | cons e rest ih =>
      intro ys off lii ai h
      simp only [noHaltB, List.all_cons, Bool.and_eq_true, Bool.not_eq_eq_eq_not,
        Bool.not_true] at h
      have hrest : noHaltB rest = true := by simp [noHaltB, h.2]
      cases e with
      | query ts pre8 err2 status db text =>
          by_cases hff : ffHit ffu (off + 19) = true
          · simp only [List.cons_append, goFF, hff, if_true]
            exact ih ys (off + (33 + status.length + db.length + text.length)) lii ai hrest
          · have hffF : ffHit ffu (off + 19) = false := by
              cases hq : ffHit ffu (off + 19) <;> simp_all
            simp only [List.cons_append, goFF, hffF, Bool.false_eq_true, if_false,
              List.append_eq]
            rw [ih ys (off + (33 + status.length + db.length + text.length))
              (if truthyO lii || truthyO ai then none else lii)
              (if truthyO lii || truthyO ai then none else ai) hrest]
      | stopEv ts => simp [isHaltingB] at h
      | rotate ts pos8 name => simp [isHaltingB] at h
      | intvar ts sel v hi4 =>
          by_cases hs1 : sel = 1
          · simp only [List.cons_append, goFF]
            rw [if_pos hs1, if_pos hs1]
            exact ih ys (off + 28) (some v) ai hrest
          · by_cases hs2 : sel = 2
            · simp only [List.cons_append, goFF]
              rw [if_neg hs1, if_pos hs2, if_neg hs1, if_pos hs2]
              exact ih ys (off + 28) lii (some v) hrest
            · simp only [List.cons_append, goFF]
              rw [if_neg hs1, if_neg hs2, if_neg hs1, if_neg hs2]
              exact ih ys (off + 28) lii ai hrest
      | other ts code body => simp [isHaltingB] at h

theorem goFF_count_query_none (base : Buf) :
    ∀ (evs : List BEvent) (off : Nat) (lii ai : Option Nat),
    noHaltB evs = true →
    ((goFF base none evs off lii ai).notifs.countP isQueryN) =
      evs.countP isQueryE := by
  intro evs
  induction evs with
  | nil => intro off lii ai h; simp [goFF]
  | cons e rest ih =>
      intro off lii ai h
      simp only [noHaltB, List.all_cons, Bool.and_eq_true, Bool.not_eq_eq_eq_not,
        Bool.not_true] at h
      have hrest : noHaltB rest = true := by simp [noHaltB, h.2]
      cases e with
      | query ts pre8 err2 status db text =>
          have hffF : ffHit none (off + 19) = false := rfl
          simp only [goFF, hffF, Bool.false_eq_true, if_false]
          simp only [List.countP_cons, isQueryN, isQueryE]
          rw [ih (off + (33 + status.length + db.length + text.length))
            (if truthyO lii || truthyO ai then none else lii)
            (if truthyO lii || truthyO ai then none else ai) hrest]
      | stopEv ts => simp [isHaltingB] at h
      | rotate ts pos8 name => simp [isHaltingB] at h
      | intvar ts sel v hi4 =>
          have hcnt : rest.countP isQueryE =
              (.intvar ts sel v hi4 :: rest).countP isQueryE := by
            simp [List.countP_cons, isQueryE]
          by_cases hs1 : sel = 1
          · simp only [goFF]
            rw [if_pos hs1, ih (off + 28) (some v) ai hrest, ← hcnt]
          · by_cases hs2 : sel = 2
            · simp only [goFF]
              rw [if_neg hs1, if_pos hs2, ih (off + 28) lii (some v) hrest, ← hcnt]
            · simp only [goFF]
              rw [if_neg hs1, if_neg hs2, ih (off + 28) lii ai hrest, ← hcnt]
      | other ts code body => simp [isHaltingB] at h

theorem goFF_count_log (base : Buf) (ffu : Option Nat) :
    ∀ (evs : List BEvent) (off : Nat) (lii ai : Option Nat),
    (goFF base ffu evs off lii ai).notifs.countP isLogN = 0 := by
  intro evs
  induction evs with
  | nil => intro off lii ai; simp [goFF]
  | cons e rest ih =>
      intro off lii ai
      cases e with
      | query ts pre8 err2 status db text =>
          by_cases hff : ffHit ffu (off + 19) = true
          · simp only [goFF, hff, if_true]; exact ih _ _ _
          · have hffF : ffHit ffu (off + 19) = false := by
              cases hq : ffHit ffu (off + 19) <;> simp_all
            simp only [goFF, hffF, Bool.false_eq_true, if_false,
              List.countP_cons, isLogN]
            rw [ih]
      | stopEv ts => simp [goFF, isLogN]
      | rotate ts pos8 name => simp [goFF, isLogN]
      | intvar ts sel v hi4 =>
          by_cases hs1 : sel = 1
          · simp only [goFF]; rw [if_pos hs1]; exact ih _ _ _
          · by_cases hs2 : sel = 2
            · simp only [goFF]; rw [if_neg hs1, if_pos hs2]; exact ih _ _ _
            · simp only [goFF]; rw [if_neg hs1, if_neg hs2]; exact ih _ _ _
      | other ts code body => simp [goFF]

theorem goFF_count_stopped (base : Buf) (ffu : Option Nat) :
    ∀ (evs : List BEvent) (off : Nat) (lii ai : Option Nat),
    noHaltB evs = true →
    (goFF base ffu evs off lii ai).notifs.countP isStoppedN = 0 := by
  intro evs
  induction evs with
  | nil => intro off lii ai h; simp [goFF]
  | cons e rest ih =>
      intro off lii ai h
      simp only [noHaltB, List.all_cons, Bool.and_eq_true, Bool.not_eq_eq_eq_not,
        Bool.not_true] at h
      have hrest : noHaltB rest = true := by simp [noHaltB, h.2]
      cases e with
      | query ts pre8 err2 status db text =>
          by_cases hff : ffHit ffu (off + 19) = true
          · simp only [goFF, hff, if_true]; exact ih _ _ _ hrest
          · have hffF : ffHit ffu (off + 19) = false := by
              cases hq : ffHit ffu (off + 19) <;> simp_all
            simp only [goFF, hffF, Bool.false_eq_true, if_false,
              List.countP_cons, isStoppedN]
            rw [ih _ _ _ hrest]
      | stopEv ts => simp [isHaltingB] at h
      | rotate ts pos8 name => simp [isHaltingB] at h
      | intvar ts sel v hi4 =>
          by_cases hs1 : sel = 1
          · simp only [goFF]; rw [if_pos hs1]; exact ih _ _ _ hrest
          · by_cases hs2 : sel = 2
            · simp only [goFF]; rw [if_neg hs1, if_pos hs2]; exact ih _ _ _ hrest
            · simp only [goFF]; rw [if_neg hs1, if_neg hs2]; exact ih _ _ _ hrest
      | other ts code body => simp [isHaltingB] at h

theorem goFF_carry_clean (base : Buf) (ffu : Option Nat) :
    ∀ (evs : List BEvent) (off : Nat),
    noHaltB evs = true → noIntvarB evs = true →
    (goFF base ffu evs off none none).lastInsertId = none ∧
    (goFF base ffu evs off none none).autoIncrement = none := by
  intro evs
  induction evs with
  | nil => intro off h hi; simp [goFF]
  | cons e rest ih =>
      intro off h hi
      simp only [noHaltB, List.all_cons, Bool.and_eq_true, Bool.not_eq_eq_eq_not,
        Bool.not_true] at h
      simp only [noIntvarB, List.all_cons, Bool.and_eq_true, Bool.not_eq_eq_eq_not,
        Bool.not_true] at hi
      have hrest : noHaltB rest = true := by simp [noHaltB, h.2]
      have hirest : noIntvarB rest = true := by simp [noIntvarB, hi.2]
      cases e with
      | query ts pre8 err2 status db text =>
          by_cases hff : ffHit ffu (off + 19) = true
          · simp only [goFF, hff, if_true]
            exact ih _ hrest hirest
          · have hffF : ffHit ffu (off + 19) = false := by
              cases hq : ffHit ffu (off + 19) <;> simp_all
            simp only [goFF, hffF, Bool.false_eq_true, if_false, truthyO,
              Bool.or_self]
            exact ih _ hrest hirest
      | stopEv ts => simp [isHaltingB] at h
      | rotate ts pos8 name => simp [isHaltingB] at h
      | intvar ts sel v hi4 => simp [isIntvarE] at hi
      | other ts code body => simp [isHaltingB] at h

/-- Every query event in the list, each one's fast-forward check
landing below the threshold `s`. -/
def allSupp (s : Nat) : List BEvent → Nat → Prop
  | [], _ => True
  | e :: rest, off => isQueryE e = true ∧ off + 19 < s ∧ allSupp s rest (off + encSize e)

theorem goFF_allSupp (base : Buf) (s : Nat) :
    ∀ (sq tail2 : List BEvent) (off : Nat) (lii ai : Option Nat),
    allSupp s sq off →
    goFF base (some s) (sq ++ tail2) off lii ai =
      goFF base (some s) tail2 (off + sumSizes sq) lii ai := by
  intro sq
  induction sq with
  | nil => intro tail2 off lii ai h; simp [sumSizes]
  | cons e rest ih =>
      intro tail2 off lii ai h
      obtain ⟨hq, hlt, hrest⟩ := h
      cases e with
      | query ts pre8 err2 status db text =>
          have hff : ffHit (some s) (off + 19) = true := by
            simp [ffHit]; omega
          simp only [List.cons_append, goFF, hff, if_true, List.append_eq]
          rw [ih tail2 (off + (33 + status.length + db.length + text.length)) lii ai
            (by simpa [encSize] using hrest)]
          simp only [sumSizes, encSize]
          rw [show off + (33 + status.length + db.length + text.length) +
            sumSizes rest = off + (33 + status.length + db.length + text.length +
            sumSizes rest) from by omega]
      | stopEv ts => simp [isQueryE] at hq
      | rotate ts pos8 name => simp [isQueryE] at hq
      | intvar ts sel v hi4 => simp [isQueryE] at hq
      | other ts code body => simp [isQueryE] at hq

/-- A published query notification carries a meta object only when one
of its fields is truthy. -/
def metaOk : Notif → Bool
  | .query _ _ _ (some m) => truthyO m.lastInsertId || truthyO m.autoIncrement
  | _ => true

theorem goFF_metaOk (base : Buf) (ffu : Option Nat) :
    ∀ (evs : List BEvent) (off : Nat) (lii ai : Option Nat),
    (goFF base ffu evs off lii ai).notifs.all metaOk = true := by
  intro evs
  induction evs with
  | nil => intro off lii ai; simp [goFF]
  | cons e rest ih =>
      intro off lii ai
      cases e with
      | query ts pre8 err2 status db text =>
          by_cases hff : ffHit ffu (off + 19) = true
          · simp only [goFF, hff, if_true]; exact ih _ _ _
          · have hffF : ffHit ffu (off + 19) = false := by
              cases hq : ffHit ffu (off + 19) <;> simp_all
            simp only [goFF, hffF, Bool.false_eq_true, if_false, List.all_cons]
            by_cases hat : (truthyO lii || truthyO ai) = true
            · simp only [hat, if_true, metaOk]
              rw [ih]
              simp
            · have hatF : (truthyO lii || truthyO ai) = false := by
                cases hq : (truthyO lii || truthyO ai) <;> simp_all
              simp only [hatF, Bool.false_eq_true, if_false, metaOk]
              rw [ih]
              simp
      | stopEv ts => simp [goFF, metaOk]
      | rotate ts pos8 name => simp [goFF, metaOk]
      | intvar ts sel v hi4 =>
          by_cases hs1 : sel = 1
          · simp only [goFF]; rw [if_pos hs1]; exact ih _ _ _
          · by_cases hs2 : sel = 2
            · simp only [goFF]; rw [if_neg hs1, if_pos hs2]; exact ih _ _ _
            · simp only [goFF]; rw [if_neg hs1, if_neg hs2]; exact ih _ _ _
      | other ts code body => simp [goFF]

/-! Cursor bookkeeping lemmas: every physical read the loop issues
fits below the known size (the readChunk guard), reads are issued at
non-decreasing, non-overlapping offsets, and the logical offset never
decreases. -/

/-- The machine state a dispatch result carries. -/
def dispatchedState : Dispatched → MState
  | .next s _ => s
  | .quiet s _ => s

theorem dispatch_off_mono (base file : Buf) (ffu : Option Nat) (st : MState)
    (buf : Buf) :
    st.fileOffset ≤ (dispatchedState (dispatch base file ffu st buf)).fileOffset := by
  rcases st with ⟨c, fo, bw, rd, l, a, sp⟩
  cases c <;> simp only [dispatch, dispatchedState] <;>
    first
      | omega
      | (split_ifs <;> simp only [dispatchedState] <;> omega)

theorem drive_reads (base file : Buf) (ffu : Option Nat) (data : Buf) (size : Nat) :
    ∀ (fuel : Nat) (st : MState),
    (∀ p ∈ (drive base file ffu data size fuel st).reads,
        st.fileOffset ≤ p.1 ∧ p.1 + p.2 ≤ size) ∧
    st.fileOffset ≤ (drive base file ffu data size fuel st).st.fileOffset ∧
    List.Chain' (fun p q => p.1 + p.2 ≤ q.1)
      (drive base file ffu data size fuel st).reads := by
  intro fuel
  induction fuel with
  | zero => intro st; simp [drive]
  | succ f ih =>
      intro st
      simp only [drive]
      by_cases hr : st.ready = false
      · rw [if_pos hr]; simp
      · rw [if_neg hr]
        by_cases hw : st.bytesWanted = 0
        · rw [if_pos hw]; simp
        · rw [if_neg hw]
          by_cases hg : size < st.fileOffset + st.bytesWanted
          · rw [if_pos hg]; simp
          · rw [if_neg hg]
            rcases hd : dispatch base file ffu
                { st with
                  fileOffset := st.fileOffset + st.bytesWanted
                  bytesWanted := 0 }
                (readBytes data st.fileOffset st.bytesWanted) with
              ⟨st2, ns⟩ | ⟨st2, ns⟩
            · have hmono := dispatch_off_mono base file ffu
                { st with
                  fileOffset := st.fileOffset + st.bytesWanted
                  bytesWanted := 0 }
                (readBytes data st.fileOffset st.bytesWanted)
              rw [hd] at hmono
              simp only [dispatchedState] at hmono
              obtain ⟨ihreads, ihoff, ihchain⟩ := ih st2
              refine ⟨?_, ?_, ?_⟩
              · intro p hp
                have hp2 : p ∈ (st.fileOffset, st.bytesWanted) ::
                    (drive base file ffu data size f st2).reads := hp
                simp only [List.mem_cons] at hp2
                rcases hp2 with rfl | hp2
                · exact ⟨Nat.le_refl _, by omega⟩
                · have hpb := ihreads p hp2
                  exact ⟨by omega, hpb.2⟩
              · exact Nat.le_trans (show st.fileOffset ≤ st2.fileOffset by omega) ihoff
              · have hc : List.Chain' (fun p q => p.1 + p.2 ≤ q.1)
                    ((st.fileOffset, st.bytesWanted) ::
                      (drive base file ffu data size f st2).reads) := by
                  rw [List.chain'_cons']
                  refine ⟨?_, ihchain⟩
                  intro q hq
                  have hqm : q ∈ (drive base file ffu data size f st2).reads :=
                    List.mem_of_mem_head? hq
                  have hqb := ihreads q hqm
                  simp only []
                  omega
                exact hc
            · have hmono := dispatch_off_mono base file ffu
                { st with
                  fileOffset := st.fileOffset + st.bytesWanted
                  bytesWanted := 0 }
                (readBytes data st.fileOffset st.bytesWanted)
              rw [hd] at hmono
              simp only [dispatchedState] at hmono
              refine ⟨?_, ?_, ?_⟩
              · intro p hp
                have hp2 : p ∈ [(st.fileOffset, st.bytesWanted)] := hp
                simp only [List.mem_cons, List.not_mem_nil, or_false] at hp2
                subst hp2
                exact ⟨Nat.le_refl _, by omega⟩
              · exact (show st.fileOffset ≤ st2.fileOffset by omega)
              · have hc : List.Chain' (fun p q => p.1 + p.2 ≤ q.1)
                    [(st.fileOffset, st.bytesWanted)] := List.chain'_singleton _
                exact hc

/-! Helpers for the claim theorems. -/

theorem endState_fileOffset (g : SpecOut) : (endState g).fileOffset = g.off := by
  cases g with
  | mk ns o l a e => cases e <;> rfl

theorem sumSizes_append (l1 l2 : List BEvent) :
    sumSizes (l1 ++ l2) = sumSizes l1 + sumSizes l2 := by
  induction l1 with
  | nil => simp [sumSizes]
  | cons e t ih => simp [sumSizes, ih]; omega

/-- A well-formed query event with fixed thread-id/exec-time and error
code bytes, used for concrete inputs. -/
def wq (ts : Nat) (db text : Buf) : BEvent :=
  .query ts [0, 0, 0, 0, 0, 0, 0, 0] [0, 0] [] db text

/-- Concrete stream for the C1 counterexample: format description,
then a Stop event followed by a Query event. -/
def c1data : Buf := encLog 1 [] [.stopEv 9, wq 5 [97] [98]]

/-- C1 counterexample: on the well-formed single-file stream
[format description, Stop(ts 9), Query(ts 5)] decoded with no
fast-forward threshold, the decoder publishes no Query notification
for the Query event (decoding halts at the Stop because parseStopEvent
requests no further read; the default case of the expectEvent switch
halts the same way), and the final logical offset (42) differs from
the file size (77) — contradicting the claim that every Query event
yields exactly one Query notification and that after consuming all
events the offset equals the file size. -/
theorem c1_counterexample :
    (runSession [100] [102] none c1data 20).notifs =
      [.logStarted 1 [102], .serverStopped 9] ∧
    (runSession [100] [102] none c1data 20).notifs.countP isQueryN = 0 ∧
    c1data.length = 77 ∧
    (runSession [100] [102] none c1data 20).st.fileOffset = 42 ∧
    ¬ (runSession [100] [102] none c1data 20).st.fileOffset = c1data.length := by
  decide

/-- C1 (amended): for every well-formed single-file stream decoded
with no fast-forward threshold whose events are Query and IntVar
events, optionally ended by one final Stop event or one final
unrecognized event, the session publishes exactly one LogStarted
first, then one Query notification per Query event, one ServerStopped
per Stop event and nothing for IntVar or unrecognized events, in file
order, and the final logical offset equals the file size.  (The
restriction is forced: decoding halts at a Stop event and equally at
an unrecognized event — the default case of the expectEvent switch
skips the body but never calls expectEvent again — so events after a
mid-file Stop or unrecognized event are never decoded; see the
counterexample.) -/
theorem c1_theorem (base file : Buf) (fdTs : Nat) (fdBody : Buf)
    (evs0 : List BEvent) (stopTs fuel oTs oCode : Nat) (oBody : Buf)
    (hts : fdTs < 4294967296)
    (hfd : 19 + fdBody.length < 4294967296)
    (hwf : wfB evs0 = true)
    (hnh : noHaltB evs0 = true)
    (hst : stopTs < 4294967296)
    (hwo : wfEventB (.other oTs oCode oBody) = true)
    (hfuel : 2 * evs0.length + 5 ≤ fuel) :
    ((runSession base file none (encLog fdTs fdBody evs0) fuel).notifs =
        .logStarted fdTs file ::
          (goFF base none evs0 (23 + fdBody.length) none none).notifs ∧
      (runSession base file none (encLog fdTs fdBody evs0) fuel).notifs.countP
        isQueryN = evs0.countP isQueryE ∧
      (runSession base file none (encLog fdTs fdBody evs0) fuel).notifs.countP
        isLogN = 1 ∧
      (runSession base file none (encLog fdTs fdBody evs0) fuel).notifs.countP
        isStoppedN = 0 ∧
      (runSession base file none (encLog fdTs fdBody evs0) fuel).st.fileOffset =
        (encLog fdTs fdBody evs0).length) ∧
    ((runSession base file none (encLog fdTs fdBody (evs0 ++ [.stopEv stopTs]))
        fuel).notifs =
        .logStarted fdTs file ::
          ((goFF base none evs0 (23 + fdBody.length) none none).notifs ++
            [.serverStopped stopTs]) ∧
      (runSession base file none (encLog fdTs fdBody (evs0 ++ [.stopEv stopTs]))
        fuel).notifs.countP isQueryN = evs0.countP isQueryE ∧
      (runSession base file none (encLog fdTs fdBody (evs0 ++ [.stopEv stopTs]))
        fuel).notifs.countP isStoppedN = 1 ∧
      (runSession base file none (encLog fdTs fdBody (evs0 ++ [.stopEv stopTs]))
        fuel).st.fileOffset =
        (encLog fdTs fdBody (evs0 ++ [.stopEv stopTs])).length) ∧
    ((runSession base file none
        (encLog fdTs fdBody (evs0 ++ [.other oTs oCode oBody])) fuel).notifs =
        .logStarted fdTs file ::
          (goFF base none evs0 (23 + fdBody.length) none none).notifs ∧
      (runSession base file none
        (encLog fdTs fdBody (evs0 ++ [.other oTs oCode oBody]))
        fuel).notifs.countP isQueryN = evs0.countP isQueryE ∧
      (runSession base file none
        (encLog fdTs fdBody (evs0 ++ [.other oTs oCode oBody]))
        fuel).notifs.countP isStoppedN = 0 ∧
      (runSession base file none
        (encLog fdTs fdBody (evs0 ++ [.other oTs oCode oBody]))
        fuel).st.fileOffset =
        (encLog fdTs fdBody (evs0 ++ [.other oTs oCode oBody])).length) := by
  have hA := runSession_sim base file none fdTs fdBody evs0 fuel hts hfd hwf
    (by omega)
  simp only [agrees, sessionSpec] at hA
  have hoffA := goFF_ending_off base none evs0 (23 + fdBody.length) none none hnh
  have hlenA := encLog_length fdTs fdBody evs0 hwf
  have hwfB : wfB (evs0 ++ [.stopEv stopTs]) = true := by
    simp only [wfB, List.all_append, List.all_cons, List.all_nil,
      Bool.and_eq_true]
    refine ⟨hwf, ?_, trivial⟩
    simp [wfEventB, hst]
  have hB := runSession_sim base file none fdTs fdBody (evs0 ++ [.stopEv stopTs])
    fuel hts hfd hwfB (by simp only [List.length_append, List.length_cons, List.length_nil]; omega)
  simp only [agrees, sessionSpec] at hB
  have hdec := goFF_append base none evs0 [.stopEv stopTs] (23 + fdBody.length)
    none none hnh
  rw [hdec] at hB
  have hlenB := encLog_length fdTs fdBody (evs0 ++ [.stopEv stopTs]) hwfB
  have hsumB : sumSizes (evs0 ++ [.stopEv stopTs]) = sumSizes evs0 + 19 := by
    rw [sumSizes_append]; simp [sumSizes, encSize]
  refine ⟨?_, ?_, ?_⟩
  · refine ⟨hA.2.1, ?_, ?_, ?_, ?_⟩
    · rw [hA.2.1]
      simp only [List.countP_cons, isQueryN]
      rw [goFF_count_query_none base evs0 (23 + fdBody.length) none none hnh]
      simp
    · rw [hA.2.1]
      simp only [List.countP_cons, isLogN]
      rw [goFF_count_log base none evs0 (23 + fdBody.length) none none]
      simp
    · rw [hA.2.1]
      simp only [List.countP_cons, isStoppedN]
      rw [goFF_count_stopped base none evs0 (23 + fdBody.length) none none hnh]
      simp
    · rw [hA.1, endState_fileOffset]
      show (goFF base none evs0 (23 + fdBody.length) none none).off =
        (encLog fdTs fdBody evs0).length
      rw [hoffA.2, hlenA]
  · have hBn : (runSession base file none
        (encLog fdTs fdBody (evs0 ++ [.stopEv stopTs])) fuel).notifs =
        .logStarted fdTs file ::
          ((goFF base none evs0 (23 + fdBody.length) none none).notifs ++
            [.serverStopped stopTs]) := by
      rw [hB.2.1]
      simp [goFF]
    refine ⟨hBn, ?_, ?_, ?_⟩
    · rw [hBn]
      simp only [List.countP_cons, List.countP_append, isQueryN]
      rw [goFF_count_query_none base evs0 (23 + fdBody.length) none none hnh]
      simp [List.countP_cons, isQueryN]
    · rw [hBn]
      simp only [List.countP_cons, List.countP_append, isStoppedN]
      rw [goFF_count_stopped base none evs0 (23 + fdBody.length) none none hnh]
      simp [List.countP_cons, isStoppedN]
    · rw [hB.1, endState_fileOffset]
      show (goFF base none [BEvent.stopEv stopTs]
          (goFF base none evs0 (23 + fdBody.length) none none).off
          (goFF base none evs0 (23 + fdBody.length) none none).lastInsertId
          (goFF base none evs0 (23 + fdBody.length) none none).autoIncrement).off =
        (encLog fdTs fdBody (evs0 ++ [.stopEv stopTs])).length
      simp only [goFF]
      rw [hoffA.2, hlenB, hsumB]
      omega
  · have hwfC : wfB (evs0 ++ [.other oTs oCode oBody]) = true := by
      simp only [wfB, List.all_append, List.all_cons, List.all_nil,
        Bool.and_eq_true]
      refine ⟨hwf, ?_, trivial⟩
      exact hwo
    have hC := runSession_sim base file none fdTs fdBody
      (evs0 ++ [.other oTs oCode oBody]) fuel hts hfd hwfC
      (by simp only [List.length_append, List.length_cons, List.length_nil]; omega)
    simp only [agrees, sessionSpec] at hC
    have hdecC := goFF_append base none evs0 [.other oTs oCode oBody]
      (23 + fdBody.length) none none hnh
    rw [hdecC] at hC
    have hlenC := encLog_length fdTs fdBody (evs0 ++ [.other oTs oCode oBody]) hwfC
    have hsumC : sumSizes (evs0 ++ [.other oTs oCode oBody]) =
        sumSizes evs0 + (19 + oBody.length) := by
      rw [sumSizes_append]; simp [sumSizes, encSize]
    have hCn : (runSession base file none
        (encLog fdTs fdBody (evs0 ++ [.other oTs oCode oBody])) fuel).notifs =
        .logStarted fdTs file ::
          (goFF base none evs0 (23 + fdBody.length) none none).notifs := by
      rw [hC.2.1]
      simp [goFF]
    refine ⟨hCn, ?_, ?_, ?_⟩
    · rw [hCn]
      simp only [List.countP_cons, isQueryN]
      rw [goFF_count_query_none base evs0 (23 + fdBody.length) none none hnh]
      simp
    · rw [hCn]
      simp only [List.countP_cons, isStoppedN]
      rw [goFF_count_stopped base none evs0 (23 + fdBody.length) none none hnh]
      simp
    · rw [hC.1, endState_fileOffset]
      show (goFF base none [BEvent.other oTs oCode oBody]
          (goFF base none evs0 (23 + fdBody.length) none none).off
          (goFF base none evs0 (23 + fdBody.length) none none).lastInsertId
          (goFF base none evs0 (23 + fdBody.length) none none).autoIncrement).off =
        (encLog fdTs fdBody (evs0 ++ [.other oTs oCode oBody])).length
      simp only [goFF]
      rw [hoffA.2, hlenC, hsumC]
      omega

/-- C1 witness: the amended statement holds on a concrete stream with
one Query event. -/
theorem c1_witness :
    (wfB [wq 5 [97] [98]] = true ∧ noHaltB [wq 5 [97] [98]] = true ∧
      2 * [wq 5 [97] [98]].length + 5 ≤ 20) ∧
    (runSession [100] [102] none (encLog 1 [] [wq 5 [97] [98]]) 20).notifs =
      .logStarted 1 [102] ::
        (goFF [100] none [wq 5 [97] [98]] 23 none none).notifs :=
  ⟨⟨by decide, by decide, by decide⟩,
    (c1_theorem [100] [102] 1 [] [wq 5 [97] [98]] 9 20 6 40 [1, 2, 3]
      (by decide) (by decide) (by decide) (by decide) (by decide) (by decide)
      (by decide)).1.1⟩

/-- C2 counterexample: threshold 30; the stream holds a Stop event at
offset 23 (below the threshold) followed by a Query event at offset
42 (at or after the threshold, whose 35 serialized bytes are all in
the 77-byte file).  The claim says that Query produces exactly one
Query notification, but decoding halts at the Stop event and the
Query is never published: the session's notifications are only
LogStarted and ServerStopped, with zero Query notifications. -/
theorem c2_counterexample :
    (encLog 2 [] [.stopEv 8, wq 6 [97] [98]]).length = 77 ∧
    (30 : Nat) ≤ 42 ∧
    (runSession [100] [102] (some 30)
      (encLog 2 [] [.stopEv 8, wq 6 [97] [98]]) 20).notifs =
      [.logStarted 2 [102], .serverStopped 8] ∧
    (runSession [100] [102] (some 30)
      (encLog 2 [] [.stopEv 8, wq 6 [97] [98]]) 20).notifs.countP
      isQueryN = 0 := by
  decide

/-- C2 (amended): with fast-forward threshold `s` (the file size at
session start), provided the events preceding the Query event are
Query or IntVar events (a Stop, Rotate or unrecognized event halts
decoding and silences every later event, including post-threshold
Query events — see the counterexample): a Query event whose
serialized bytes lie entirely below `s` contributes no Query
notification (the body is skipped), and a Query event starting at or
after `s` contributes exactly one Query notification.  The event sits
at offset 23 + fdBody.length + sumSizes before. -/
theorem c2_theorem (base file : Buf) (s fdTs fuel : Nat) (fdBody : Buf)
    (before after : List BEvent) (ts : Nat) (pre8 err2 status db text : Buf)
    (hts : fdTs < 4294967296)
    (hfd : 19 + fdBody.length < 4294967296)
    (hwfALL : wfB (before ++ .query ts pre8 err2 status db text :: after) = true)
    (hnh : noHaltB before = true)
    (hfuel : 2 * (before ++ .query ts pre8 err2 status db text :: after).length +
      3 ≤ fuel) :
    ((23 + fdBody.length + sumSizes before) +
        (33 + status.length + db.length + text.length) ≤ s →
      (runSession base file (some s)
        (encLog fdTs fdBody (before ++ .query ts pre8 err2 status db text :: after))
        fuel).notifs =
        .logStarted fdTs file ::
          ((goFF base (some s) before (23 + fdBody.length) none none).notifs ++
            (goFF base (some s) after
              (23 + fdBody.length + sumSizes before +
                (33 + status.length + db.length + text.length))
              (goFF base (some s) before (23 + fdBody.length) none none).lastInsertId
              (goFF base (some s) before (23 + fdBody.length) none none).autoIncrement).notifs)) ∧
    (s ≤ 23 + fdBody.length + sumSizes before →
      (runSession base file (some s)
        (encLog fdTs fdBody (before ++ .query ts pre8 err2 status db text :: after))
        fuel).notifs =
        .logStarted fdTs file ::
          ((goFF base (some s) before (23 + fdBody.length) none none).notifs ++
            .query ts db text
              (if truthyO (goFF base (some s) before (23 + fdBody.length) none none).lastInsertId ||
                  truthyO (goFF base (some s) before (23 + fdBody.length) none none).autoIncrement then
                some ⟨(goFF base (some s) before (23 + fdBody.length) none none).lastInsertId,
                  (goFF base (some s) before (23 + fdBody.length) none none).autoIncrement⟩
              else none) ::
            (goFF base (some s) after
              (23 + fdBody.length + sumSizes before +
                (33 + status.length + db.length + text.length))
              (if truthyO (goFF base (some s) before (23 + fdBody.length) none none).lastInsertId ||
                  truthyO (goFF base (some s) before (23 + fdBody.length) none none).autoIncrement then none
                else (goFF base (some s) before (23 + fdBody.length) none none).lastInsertId)
              (if truthyO (goFF base (some s) before (23 + fdBody.length) none none).lastInsertId ||
                  truthyO (goFF base (some s) before (23 + fdBody.length) none none).autoIncrement then none
                else (goFF base (some s) before (23 + fdBody.length) none none).autoIncrement)).notifs)) := by
  have hsim := runSession_sim base file (some s) fdTs fdBody
    (before ++ .query ts pre8 err2 status db text :: after) fuel hts hfd hwfALL hfuel
  simp only [agrees, sessionSpec] at hsim
  have hdec := goFF_append base (some s) before
    (.query ts pre8 err2 status db text :: after) (23 + fdBody.length) none none hnh
  rw [hdec] at hsim
  have hoffB := (goFF_ending_off base (some s) before (23 + fdBody.length)
    none none hnh).2
  constructor
  · intro hbelow
    have hff : ffHit (some s)
        ((goFF base (some s) before (23 + fdBody.length) none none).off + 19) =
        true := by
      rw [hoffB]; simp only [ffHit, decide_eq_true_eq]; omega
    rw [hsim.2.1]
    simp only [goFF, hff, if_true]
    rw [hoffB]
  · intro habove
    have hff : ffHit (some s)
        ((goFF base (some s) before (23 + fdBody.length) none none).off + 19) =
        false := by
      rw [hoffB]; simp only [ffHit, decide_eq_false_iff_not]; omega
    rw [hsim.2.1]
    simp only [goFF, hff, Bool.false_eq_true, if_false]
    rw [hoffB]

/-- C2 witness: a single Query event fully below the threshold (offset
23, size 35, threshold 100) contributes no Query notification. -/
theorem c2_witness :
    (wfB [wq 5 [97] [98]] = true ∧ 23 + 35 ≤ 100) ∧
    (runSession [100] [102] (some 100) (encLog 1 [] [wq 5 [97] [98]]) 20).notifs =
      .logStarted 1 [102] ::
        ((goFF [100] (some 100) [] 23 none none).notifs ++
          (goFF [100] (some 100) [] 58
            (goFF [100] (some 100) [] 23 none none).lastInsertId
            (goFF [100] (some 100) [] 23 none none).autoIncrement).notifs) :=
  ⟨⟨by decide, by decide⟩,
    (c2_theorem [100] [102] 100 1 20 [] [] [] 5 [0, 0, 0, 0, 0, 0, 0, 0] [0, 0]
      [] [97] [98] (by decide) (by decide) (by decide) (by decide)
      (by decide)).1 (by decide)⟩

/-- C3 counterexample: an IntVar hint with selector 2 and value 0
immediately followed by a Query event yields a published Query whose
autoIncrementCarry is absent (the JS truthiness test
`lastInsertId || autoIncrement` fails on 0), not a carry containing
the hinted value 0 as the claim states. -/
theorem c3_counterexample :
    (runSession [100] [102] none
      (encLog 1 [] [.intvar 2 2 0 [0, 0, 0, 0], wq 5 [97] [98]]) 20).notifs =
      [.logStarted 1 [102], .query 5 [97] [98] none] ∧
    (none : Option Carry) ≠ some ⟨none, some 0⟩ := by
  decide

/-- C3 (amended): an IntVar hint with selector 1 or 2 and a nonzero
32-bit value, immediately followed by a Query event, in a stream
whose earlier events are all Query events (so decoding actually
reaches the hint and the carry is clean), yields that Query published
with autoIncrementCarry holding exactly the hinted value in the
selected field (the other field unset); the next Query event with no
intervening hint is published with no carry (the carry is cleared
when consumed). -/
theorem c3_theorem (base file : Buf) (fdTs fuel : Nat) (fdBody : Buf)
    (pre rest : List BEvent) (tsI sel v : Nat) (hi4 : Buf)
    (ts1 ts2 : Nat) (p81 e21 st1 db1 tx1 p82 e22 st2 db2 tx2 : Buf)
    (hts : fdTs < 4294967296)
    (hfd : 19 + fdBody.length < 4294967296)
    (hwfALL : wfB (pre ++ .intvar tsI sel v hi4 ::
      .query ts1 p81 e21 st1 db1 tx1 ::
      .query ts2 p82 e22 st2 db2 tx2 :: rest) = true)
    (hnh : noHaltB pre = true)
    (hni : noIntvarB pre = true)
    (hsel : sel = 1 ∨ sel = 2)
    (hv : v ≠ 0)
    (hfuel : 2 * (pre ++ .intvar tsI sel v hi4 ::
      .query ts1 p81 e21 st1 db1 tx1 ::
      .query ts2 p82 e22 st2 db2 tx2 :: rest).length + 3 ≤ fuel) :
    (runSession base file none
      (encLog fdTs fdBody (pre ++ .intvar tsI sel v hi4 ::
        .query ts1 p81 e21 st1 db1 tx1 ::
        .query ts2 p82 e22 st2 db2 tx2 :: rest)) fuel).notifs =
      .logStarted fdTs file ::
        ((goFF base none pre (23 + fdBody.length) none none).notifs ++
          .query ts1 db1 tx1
            (some ⟨if sel = 1 then some v else none,
              if sel = 2 then some v else none⟩) ::
          .query ts2 db2 tx2 none ::
          (goFF base none rest
            (23 + fdBody.length + sumSizes pre + 28 +
              (33 + st1.length + db1.length + tx1.length) +
              (33 + st2.length + db2.length + tx2.length))
            none none).notifs) := by
  have hsim := runSession_sim base file none fdTs fdBody
    (pre ++ .intvar tsI sel v hi4 ::
      .query ts1 p81 e21 st1 db1 tx1 ::
      .query ts2 p82 e22 st2 db2 tx2 :: rest) fuel hts hfd hwfALL hfuel
  simp only [agrees, sessionSpec] at hsim
  have hdec := goFF_append base none pre
    (.intvar tsI sel v hi4 ::
      .query ts1 p81 e21 st1 db1 tx1 ::
      .query ts2 p82 e22 st2 db2 tx2 :: rest) (23 + fdBody.length) none none hnh
  rw [hdec] at hsim
  have hclean := goFF_carry_clean base none pre (23 + fdBody.length) hnh hni
  have hoffP := (goFF_ending_off base none pre (23 + fdBody.length)
    none none hnh).2
  rw [hsim.2.1, hclean.1, hclean.2, hoffP]
  rcases hsel with rfl | rfl
  · simp [goFF, ffHit, truthyO, hv]
  · simp [goFF, ffHit, truthyO, hv]

/-- C3 witness: hint selector 2, value 7, then two Query events. -/
theorem c3_witness :
    ((2 : Nat) = 1 ∨ (2 : Nat) = 2) ∧ (7 : Nat) ≠ 0 ∧
    (runSession [100] [102] none
      (encLog 1 [] [.intvar 2 2 7 [0, 0, 0, 0], wq 5 [97] [98], wq 6 [97] [99]])
      20).notifs =
      .logStarted 1 [102] ::
        ((goFF [100] none [] 23 none none).notifs ++
          .query 5 [97] [98] (some ⟨none, some 7⟩) ::
          .query 6 [97] [99] none ::
          (goFF [100] none [] 121 none none).notifs) :=
  ⟨Or.inr rfl, by decide,
    c3_theorem [100] [102] 1 20 [] [] [] 2 2 7 [0, 0, 0, 0] 5 6
      [0, 0, 0, 0, 0, 0, 0, 0] [0, 0] [] [97] [98]
      [0, 0, 0, 0, 0, 0, 0, 0] [0, 0] [] [97] [99]
      (by decide) (by decide) (by decide) (by decide) (by decide)
      (Or.inr rfl) (by decide) (by decide)⟩

/-- Concrete stream for the C4 counterexample: magic plus a
format-description header declaring a 100-byte event whose body has
not yet been appended (a normal state of a growing file). -/
def c4data : Buf := magic4 ++ mkHeader 2 15 100

/-- C4 counterexample: after the format-description header is read,
its 81 declared body bytes are skipped logically even though the file
only holds 23 bytes, so the logical offset (104) exceeds the known
file size (23) while the session legitimately waits for growth —
contradicting the claim that the offset is always at most the known
file size.  All physical reads issued stayed within the known size. -/
theorem c4_counterexample :
    c4data.length = 23 ∧
    (runSession [100] [102] none c4data 10).st.fileOffset = 104 ∧
    ¬ ((runSession [100] [102] none c4data 10).st.fileOffset ≤ c4data.length) ∧
    (runSession [100] [102] none c4data 10).thrown = false ∧
    (runSession [100] [102] none c4data 10).st.ready = true ∧
    (∀ p ∈ (runSession [100] [102] none c4data 10).reads,
      p.1 + p.2 ≤ c4data.length) := by
  decide

/-- C4 (amended): for a session over a well-formed encoded stream —
where every declared event length is at least the 19-byte header, so
the Nat offset arithmetic below coincides with the JS arithmetic —
every physical read the readChunk loop issues has its whole range
[offset, offset+count) within the known file size, reads happen at
non-decreasing and non-overlapping offsets, and the logical offset
never decreases, including across a growth re-entry after further
well-formed events are appended; the logical offset itself may
however exceed the known size after a logical skip (see the
counterexample), so the claim's "offset ≤ known size" clause is
dropped. -/
theorem c4_theorem (base file : Buf) (ffu : Option Nat) (fdTs fuel fuel2 : Nat)
    (fdBody : Buf) (evs0 evs2 : List BEvent)
    (_hwf : wfB evs0 = true)
    (_hwf2 : wfB evs2 = true) :
    (∀ p ∈ (runSession base file ffu (encLog fdTs fdBody evs0) fuel).reads,
        p.1 + p.2 ≤ (encLog fdTs fdBody evs0).length) ∧
    List.Chain' (fun p q => p.1 + p.2 ≤ q.1)
      (runSession base file ffu (encLog fdTs fdBody evs0) fuel).reads ∧
    (∀ p ∈ (drive base file ffu (encLog fdTs fdBody (evs0 ++ evs2))
        (encLog fdTs fdBody (evs0 ++ evs2)).length fuel2
        (runSession base file ffu (encLog fdTs fdBody evs0) fuel).st).reads,
        (runSession base file ffu (encLog fdTs fdBody evs0)
          fuel).st.fileOffset ≤ p.1 ∧
        p.1 + p.2 ≤ (encLog fdTs fdBody (evs0 ++ evs2)).length) ∧
    List.Chain' (fun p q => p.1 + p.2 ≤ q.1)
      (drive base file ffu (encLog fdTs fdBody (evs0 ++ evs2))
        (encLog fdTs fdBody (evs0 ++ evs2)).length fuel2
        (runSession base file ffu (encLog fdTs fdBody evs0) fuel).st).reads ∧
    (runSession base file ffu (encLog fdTs fdBody evs0) fuel).st.fileOffset ≤
      (drive base file ffu (encLog fdTs fdBody (evs0 ++ evs2))
        (encLog fdTs fdBody (evs0 ++ evs2)).length fuel2
        (runSession base file ffu (encLog fdTs fdBody evs0)
          fuel).st).st.fileOffset := by
  have h1 := drive_reads base file ffu (encLog fdTs fdBody evs0)
    (encLog fdTs fdBody evs0).length fuel initMState
  have h2 := drive_reads base file ffu (encLog fdTs fdBody (evs0 ++ evs2))
    (encLog fdTs fdBody (evs0 ++ evs2)).length fuel2
    (runSession base file ffu (encLog fdTs fdBody evs0) fuel).st
  exact ⟨fun p hp => (h1.1 p hp).2, h1.2.2, h2.1, h2.2.2, h2.2.1⟩

/-- C4 witness: a concrete well-formed session with one Query event,
grown by a further Query event: the session's physical reads are
chained non-overlapping. -/
theorem c4_witness :
    (wfB [wq 5 [97] [98]] = true ∧ wfB [wq 6 [97] [99]] = true) ∧
    List.Chain' (fun p q => p.1 + p.2 ≤ q.1)
      (runSession [100] [102] none (encLog 1 [] [wq 5 [97] [98]]) 20).reads :=
  ⟨⟨by decide, by decide⟩,
    (c4_theorem [100] [102] none 1 20 20 [] [wq 5 [97] [98]] [wq 6 [97] [99]]
      (by decide) (by decide)).2.1⟩

/-- C5: on a failed physical read the session is torn down (stop()
removes the watch and closes the handle, the cursor is no longer
ready) and the read is not retried, but the attempted
`this.emit('error', err)` addresses the undefined `this` of the
strict-mode fs.read callback rather than the tailer, so no Error
notification is delivered on the tailer's channel — the claim's
delivery of the Error notification is the intent (every other path
uses `that.emit`), and the code's `this` is a slip. -/
theorem c5_theorem (st : MState) :
    (onReadError st).st.stopped = true ∧
    (onReadError st).st.ready = false ∧
    (onReadError st).tailerNotifs = [] ∧
    (onReadError st).emitReceiver ≠ Receiver.tailer := by
  refine ⟨rfl, rfl, rfl, ?_⟩
  simp [onReadError]

/-- Concrete stream for the C6 counterexample: format description and
a Stop event; the file then grows by one Query event. -/
def c6data : Buf := encLog 3 [] [.stopEv 11]

/-- The C6 file after the append. -/
def c6grown : Buf := c6data ++ encEvent (wq 6 [97] [98])

/-- C6 counterexample: after the Stop event the session is left with
no outstanding read (parseStopEvent never calls expectEvent), so when
the file grows by a further Query event the watch callback re-enters
readChunk with `bytesWanted = 0` and the 'No bytes wanted?' error is
thrown; the appended event is never decoded and nothing further is
published — contradicting the claim that the decoder is re-entered
and decodes subsequent events. -/
theorem c6_counterexample :
    (runSession [100] [102] none c6data 10).notifs =
      [.logStarted 3 [102], .serverStopped 11] ∧
    (runSession [100] [102] none c6data 10).st.stopped = false ∧
    (runSession [100] [102] none c6data 10).st.ready = true ∧
    (runSession [100] [102] none c6data 10).st.bytesWanted = 0 ∧
    (onGrowth [100] [102] none c6grown 10
      (runSession [100] [102] none c6data 10).st).thrown = true ∧
    (onGrowth [100] [102] none c6grown 10
      (runSession [100] [102] none c6data 10).st).notifs = [] := by
  decide

/-- C6 (amended): a Stop event reached by the decoder (the events
before it are Query/IntVar events, the only ones that loop) publishes
ServerStopped with the header timestamp and does not tear the session
down (the watch and handle stay: stop() is not called), but the
decoder is never re-entered: no read is outstanding after a Stop, and
any subsequent growth notification — whatever bytes were appended —
takes the 'No bytes wanted?' throw branch and decodes nothing.  (An
unrecognized event leaves the decoder in the same stalled state.) -/
theorem c6_theorem (base file extra : Buf) (ffu : Option Nat)
    (fdTs stopTs fuel fuel2 : Nat) (fdBody : Buf) (evs0 : List BEvent)
    (hts : fdTs < 4294967296)
    (hfd : 19 + fdBody.length < 4294967296)
    (hwf : wfB evs0 = true)
    (hnh : noHaltB evs0 = true)
    (hst : stopTs < 4294967296)
    (hfuel : 2 * evs0.length + 5 ≤ fuel) :
    (runSession base file ffu (encLog fdTs fdBody (evs0 ++ [.stopEv stopTs]))
      fuel).notifs =
      .logStarted fdTs file ::
        ((goFF base ffu evs0 (23 + fdBody.length) none none).notifs ++
          [.serverStopped stopTs]) ∧
    (runSession base file ffu (encLog fdTs fdBody (evs0 ++ [.stopEv stopTs]))
      fuel).st.stopped = false ∧
    (runSession base file ffu (encLog fdTs fdBody (evs0 ++ [.stopEv stopTs]))
      fuel).st.ready = true ∧
    (runSession base file ffu (encLog fdTs fdBody (evs0 ++ [.stopEv stopTs]))
      fuel).st.bytesWanted = 0 ∧
    (drive base file ffu
      (encLog fdTs fdBody (evs0 ++ [.stopEv stopTs]) ++ extra)
      (encLog fdTs fdBody (evs0 ++ [.stopEv stopTs]) ++ extra).length
      (fuel2 + 1)
      (runSession base file ffu (encLog fdTs fdBody (evs0 ++ [.stopEv stopTs]))
        fuel).st).thrown = true ∧
    (drive base file ffu
      (encLog fdTs fdBody (evs0 ++ [.stopEv stopTs]) ++ extra)
      (encLog fdTs fdBody (evs0 ++ [.stopEv stopTs]) ++ extra).length
      (fuel2 + 1)
      (runSession base file ffu (encLog fdTs fdBody (evs0 ++ [.stopEv stopTs]))
        fuel).st).notifs = [] := by
  have hwfB : wfB (evs0 ++ [.stopEv stopTs]) = true := by
    simp only [wfB, List.all_append, List.all_cons, List.all_nil,
      Bool.and_eq_true]
    refine ⟨hwf, ?_, trivial⟩
    simp [wfEventB, hst]
  have hB := runSession_sim base file ffu fdTs fdBody (evs0 ++ [.stopEv stopTs])
    fuel hts hfd hwfB
    (by simp only [List.length_append, List.length_cons, List.length_nil]; omega)
  simp only [agrees, sessionSpec] at hB
  have hdec := goFF_append base ffu evs0 [.stopEv stopTs] (23 + fdBody.length)
    none none hnh
  rw [hdec] at hB
  have hstEq : (runSession base file ffu
      (encLog fdTs fdBody (evs0 ++ [.stopEv stopTs])) fuel).st =
      ⟨.idleDone,
        (goFF base ffu evs0 (23 + fdBody.length) none none).off + 19, 0, true,
        (goFF base ffu evs0 (23 + fdBody.length) none none).lastInsertId,
        (goFF base ffu evs0 (23 + fdBody.length) none none).autoIncrement,
        false⟩ := by
    rw [hB.1]
    rfl
  refine ⟨?_, ?_, ?_, ?_, ?_, ?_⟩
  · rw [hB.2.1]
    simp [goFF]
  · rw [hstEq]
  · rw [hstEq]
  · rw [hstEq]
  · rw [hstEq]
    rfl
  · rw [hstEq]
    rfl

/-- C6 witness: a file holding only a format description and a Stop
event, then grown by a Query event: the growth drive throws. -/
theorem c6_witness :
    (wfB ([] : List BEvent) = true ∧ noHaltB ([] : List BEvent) = true ∧
      (11 : Nat) < 4294967296) ∧
    (drive [100] [102] none
      (encLog 3 [] [.stopEv 11] ++ encEvent (wq 6 [97] [98]))
      (encLog 3 [] [.stopEv 11] ++ encEvent (wq 6 [97] [98])).length (9 + 1)
      (runSession [100] [102] none (encLog 3 [] [.stopEv 11]) 10).st).thrown =
      true :=
  ⟨⟨by decide, by decide, by decide⟩,
    (c6_theorem [100] [102] (encEvent (wq 6 [97] [98])) none 3 11 10 9 [] []
      (by decide) (by decide) (by decide) (by decide) (by decide)
      (by decide)).2.2.2.2.1⟩

/-- C8 counterexample: threshold 80; an IntVar hint (selector 2,
value 0) below the threshold, a Query suppressed below the threshold,
then a Query published above it.  The carry field was set (it still
holds 0 after the run) and was never cleared, yet the first published
post-threshold Query carries no autoIncrementCarry because 0 is falsy
— contradicting the claim that a carry set below the threshold is
attached to the first published post-threshold Query. -/
theorem c8_counterexample :
    (runSession [100] [102] (some 80)
      (encLog 1 [] [.intvar 2 2 0 [0, 0, 0, 0], wq 5 [97] [98], wq 6 [97] [99]])
      20).notifs =
      [.logStarted 1 [102], .query 6 [97] [99] none] ∧
    (runSession [100] [102] (some 80)
      (encLog 1 [] [.intvar 2 2 0 [0, 0, 0, 0], wq 5 [97] [98], wq 6 [97] [99]])
      20).st.autoIncrement = some 0 := by
  decide

/-- C8 (amended): the fast-forward branch leaves the carry fields
untouched (suppressed Query events contribute no notification and
pass the carry through unchanged), so a carry holding a nonzero value
hinted below the threshold is attached to the first published
post-threshold Query event.  (Nonzero is forced: a zero-valued carry
is falsy and never attached — see the counterexample.) -/
theorem c8_theorem (base file : Buf) (s fdTs fuel : Nat) (fdBody : Buf)
    (sq rest : List BEvent) (tsI sel v : Nat) (hi4 : Buf)
    (tsQ : Nat) (p8Q e2Q stQ dbQ txQ : Buf)
    (hts : fdTs < 4294967296)
    (hfd : 19 + fdBody.length < 4294967296)
    (hwfALL : wfB (.intvar tsI sel v hi4 ::
      (sq ++ .query tsQ p8Q e2Q stQ dbQ txQ :: rest)) = true)
    (hsel : sel = 1 ∨ sel = 2)
    (hv : v ≠ 0)
    (hsupp : allSupp s sq (23 + fdBody.length + 28))
    (hpub : s ≤ 23 + fdBody.length + 28 + sumSizes sq)
    (hfuel : 2 * (.intvar tsI sel v hi4 ::
      (sq ++ .query tsQ p8Q e2Q stQ dbQ txQ :: rest)).length + 3 ≤ fuel) :
    (runSession base file (some s)
      (encLog fdTs fdBody (.intvar tsI sel v hi4 ::
        (sq ++ .query tsQ p8Q e2Q stQ dbQ txQ :: rest))) fuel).notifs =
      .logStarted fdTs file ::
        .query tsQ dbQ txQ
          (some ⟨if sel = 1 then some v else none,
            if sel = 2 then some v else none⟩) ::
        (goFF base (some s) rest
          (23 + fdBody.length + 28 + sumSizes sq +
            (33 + stQ.length + dbQ.length + txQ.length))
          none none).notifs := by
  have hsim := runSession_sim base file (some s) fdTs fdBody
    (.intvar tsI sel v hi4 :: (sq ++ .query tsQ p8Q e2Q stQ dbQ txQ :: rest))
    fuel hts hfd hwfALL hfuel
  simp only [agrees, sessionSpec] at hsim
  rw [hsim.2.1]
  have hff : ffHit (some s) (23 + fdBody.length + 28 + sumSizes sq + 19) =
      false := by
    simp only [ffHit, decide_eq_false_iff_not]; omega
  rcases hsel with rfl | rfl
  · have hstep : goFF base (some s)
        (.intvar tsI 1 v hi4 :: (sq ++ .query tsQ p8Q e2Q stQ dbQ txQ :: rest))
        (23 + fdBody.length) none none =
        goFF base (some s) (sq ++ .query tsQ p8Q e2Q stQ dbQ txQ :: rest)
          (23 + fdBody.length + 28) (some v) none := by
      simp [goFF]
    rw [hstep, goFF_allSupp base s sq (.query tsQ p8Q e2Q stQ dbQ txQ :: rest)
      (23 + fdBody.length + 28) (some v) none hsupp]
    simp [goFF, hff, truthyO, hv]
  · have hstep : goFF base (some s)
        (.intvar tsI 2 v hi4 :: (sq ++ .query tsQ p8Q e2Q stQ dbQ txQ :: rest))
        (23 + fdBody.length) none none =
        goFF base (some s) (sq ++ .query tsQ p8Q e2Q stQ dbQ txQ :: rest)
          (23 + fdBody.length + 28) none (some v) := by
      simp [goFF]
    rw [hstep, goFF_allSupp base s sq (.query tsQ p8Q e2Q stQ dbQ txQ :: rest)
      (23 + fdBody.length + 28) none (some v) hsupp]
    simp [goFF, hff, truthyO, hv]

/-- C8 witness: hint value 7 below threshold 80, one suppressed Query,
then the first published post-threshold Query carries the hint. -/
theorem c8_witness :
    ((7 : Nat) ≠ 0 ∧ allSupp 80 [wq 5 [97] [98]] 51 ∧ (80 : Nat) ≤ 86) ∧
    (runSession [100] [102] (some 80)
      (encLog 1 [] [.intvar 2 2 7 [0, 0, 0, 0], wq 5 [97] [98], wq 6 [97] [99]])
      20).notifs =
      .logStarted 1 [102] ::
        .query 6 [97] [99] (some ⟨none, some 7⟩) ::
        (goFF [100] (some 80) [] 121 none none).notifs :=
  ⟨⟨by decide, ⟨rfl, by decide, trivial⟩, by decide⟩,
    c8_theorem [100] [102] 80 1 20 [] [wq 5 [97] [98]] [] 2 2 7 [0, 0, 0, 0] 6
      [0, 0, 0, 0, 0, 0, 0, 0] [0, 0] [] [97] [99]
      (by decide) (by decide) (by decide) (Or.inr rfl) (by decide)
      ⟨rfl, by decide, trivial⟩ (by decide) (by decide)⟩

theorem endState_waiting (g : SpecOut) (h : g.ending = .waiting) :
    endState g = evState g.off g.lastInsertId g.autoIncrement := by
  cases g with
  | mk ns o l a e => cases e <;> simp_all [endState, evState]

/-- C9: a published Query notification carries an autoIncrementCarry
exactly when one of the carry fields is truthy (nonzero) at publish
time: every published notification satisfies `metaOk`, and at the
event level a Query publishes meta
`if truthy lastInsertId or truthy autoIncrement then both fields else
none`, clearing the carry exactly when it attaches (both fields pass
through unchanged otherwise). -/
theorem c9_theorem (base file : Buf) (fdTs fuel : Nat) (fdBody : Buf)
    (pre rest : List BEvent) (ts : Nat) (p8 e2 st0 db tx : Buf)
    (hts : fdTs < 4294967296)
    (hfd : 19 + fdBody.length < 4294967296)
    (hwfALL : wfB (pre ++ .query ts p8 e2 st0 db tx :: rest) = true)
    (hnh : noHaltB pre = true)
    (hfuel : 2 * (pre ++ .query ts p8 e2 st0 db tx :: rest).length + 3 ≤ fuel) :
    (runSession base file none
      (encLog fdTs fdBody (pre ++ .query ts p8 e2 st0 db tx :: rest))
      fuel).notifs.all metaOk = true ∧
    (runSession base file none
      (encLog fdTs fdBody (pre ++ .query ts p8 e2 st0 db tx :: rest))
      fuel).notifs =
      .logStarted fdTs file ::
        ((goFF base none pre (23 + fdBody.length) none none).notifs ++
          .query ts db tx
            (if truthyO (goFF base none pre (23 + fdBody.length) none none).lastInsertId ||
                truthyO (goFF base none pre (23 + fdBody.length) none none).autoIncrement then
              some ⟨(goFF base none pre (23 + fdBody.length) none none).lastInsertId,
                (goFF base none pre (23 + fdBody.length) none none).autoIncrement⟩
            else none) ::
          (goFF base none rest
            (23 + fdBody.length + sumSizes pre +
              (33 + st0.length + db.length + tx.length))
            (if truthyO (goFF base none pre (23 + fdBody.length) none none).lastInsertId ||
                truthyO (goFF base none pre (23 + fdBody.length) none none).autoIncrement then none
              else (goFF base none pre (23 + fdBody.length) none none).lastInsertId)
            (if truthyO (goFF base none pre (23 + fdBody.length) none none).lastInsertId ||
                truthyO (goFF base none pre (23 + fdBody.length) none none).autoIncrement then none
              else (goFF base none pre (23 + fdBody.length) none none).autoIncrement)).notifs) := by
  have hsim := runSession_sim base file none fdTs fdBody
    (pre ++ .query ts p8 e2 st0 db tx :: rest) fuel hts hfd hwfALL hfuel
  simp only [agrees, sessionSpec] at hsim
  constructor
  · rw [hsim.2.1]
    simp only [List.all_cons, metaOk, Bool.true_and]
    exact goFF_metaOk base none _ _ _ _
  · have hdec := goFF_append base none pre (.query ts p8 e2 st0 db tx :: rest)
      (23 + fdBody.length) none none hnh
    rw [hdec] at hsim
    have hoffP := (goFF_ending_off base none pre (23 + fdBody.length)
      none none hnh).2
    have hff : ffHit none
        ((goFF base none pre (23 + fdBody.length) none none).off + 19) =
        false := rfl
    rw [hsim.2.1]
    simp only [goFF, hff, Bool.false_eq_true, if_false]
    rw [hoffP]

/-- Concrete stream for the C10 counterexample: format description, a
Query, then a Stop event; the file then grows by a further Query. -/
def c10data : Buf := encLog 4 [] [wq 7 [97] [98], .stopEv 12]

/-- C10 counterexample: after the Stop event the cursor is ready with
`bytesWanted = 0`; the growth notification for the appended Query
event re-enters readChunk and the 'No bytes wanted?' branch is taken —
the branch is reachable, contradicting the claim. -/
theorem c10_counterexample :
    (runSession [100] [102] none c10data 20).st.ready = true ∧
    (runSession [100] [102] none c10data 20).st.bytesWanted = 0 ∧
    (onGrowth [100] [102] none (c10data ++ encEvent (wq 8 [99] [100])) 20
      (runSession [100] [102] none c10data 20).st).thrown = true := by
  decide

/-- C10 (amended): as long as neither a Stop event nor an unrecognized
event has been decoded — over a well-formed stream of Query/IntVar
events — every quiescent state of a session has an outstanding read
of 19 bytes (ready with nonzero bytesWanted), the run never takes the
'No bytes wanted?' branch, and a growth notification that appends
further well-formed events drives on without taking it either; after
a Stop or an unrecognized event the cursor is ready with
bytesWanted = 0 and the branch is reachable on the next growth
notification (see the counterexample). -/
theorem c10_theorem (base file : Buf) (ffu : Option Nat)
    (fdTs fuel fuel2 : Nat) (fdBody : Buf) (evs0 evs2 : List BEvent)
    (hts : fdTs < 4294967296)
    (hfd : 19 + fdBody.length < 4294967296)
    (hwf : wfB evs0 = true)
    (hnh : noHaltB evs0 = true)
    (hwf2 : wfB evs2 = true)
    (hfuel : 2 * evs0.length + 3 ≤ fuel)
    (hfuel2 : 2 * evs2.length + 1 ≤ fuel2) :
    (runSession base file ffu (encLog fdTs fdBody evs0) fuel).thrown = false ∧
    (runSession base file ffu (encLog fdTs fdBody evs0) fuel).st.ready = true ∧
    (runSession base file ffu (encLog fdTs fdBody evs0) fuel).st.bytesWanted =
      19 ∧
    (drive base file ffu (encLog fdTs fdBody (evs0 ++ evs2))
      (encLog fdTs fdBody (evs0 ++ evs2)).length fuel2
      (runSession base file ffu (encLog fdTs fdBody evs0) fuel).st).thrown =
      false := by
  have hsim := runSession_sim base file ffu fdTs fdBody evs0 fuel hts hfd hwf
    hfuel
  simp only [agrees, sessionSpec] at hsim
  have hoffP := goFF_ending_off base ffu evs0 (23 + fdBody.length) none none hnh
  have hend : (runSession base file ffu (encLog fdTs fdBody evs0) fuel).st =
      evState (goFF base ffu evs0 (23 + fdBody.length) none none).off
        (goFF base ffu evs0 (23 + fdBody.length) none none).lastInsertId
        (goFF base ffu evs0 (23 + fdBody.length) none none).autoIncrement := by
    rw [hsim.1]
    exact endState_waiting _ hoffP.1
  have hdrop2 : (encLog fdTs fdBody (evs0 ++ evs2)).drop
      (23 + fdBody.length + sumSizes evs0) = encEvents evs2 := by
    rw [show encLog fdTs fdBody (evs0 ++ evs2) =
      encLog fdTs fdBody evs0 ++ encEvents evs2 from by
        simp [encLog, encEvents_append]]
    exact List.drop_left' (encLog_length fdTs fdBody evs0 hwf)
  have hgrow := drive_sim base file ffu (encLog fdTs fdBody (evs0 ++ evs2)) evs2
    (23 + fdBody.length + sumSizes evs0)
    (goFF base ffu evs0 (23 + fdBody.length) none none).lastInsertId
    (goFF base ffu evs0 (23 + fdBody.length) none none).autoIncrement
    fuel2 hwf2 hdrop2 hfuel2
  simp only [agrees] at hgrow
  refine ⟨hsim.2.2, ?_, ?_, ?_⟩
  · rw [hend]
    rfl
  · rw [hend]
    rfl
  · rw [hend, hoffP.2]
    exact hgrow.2.2

/-- C9 witness: a hint (selector 1, value 4) then a Query: the whole
notification stream satisfies metaOk. -/
theorem c9_witness :
    (wfB ([.intvar 3 1 4 [0, 0, 0, 0]] ++ wq 5 [97] [98] :: []) = true ∧
      noHaltB [.intvar 3 1 4 [0, 0, 0, 0]] = true) ∧
    (runSession [100] [102] none
      (encLog 1 [] ([.intvar 3 1 4 [0, 0, 0, 0]] ++ wq 5 [97] [98] :: []))
      20).notifs.all metaOk = true :=
  ⟨⟨by decide, by decide⟩,
    (c9_theorem [100] [102] 1 20 [] [.intvar 3 1 4 [0, 0, 0, 0]] [] 5
      [0, 0, 0, 0, 0, 0, 0, 0] [0, 0] [] [97] [98]
      (by decide) (by decide) (by decide) (by decide) (by decide)).1⟩

/-- C10 witness: one Query, then growth by another Query; neither the
session run nor the growth drive takes the throw branch. -/
theorem c10_witness :
    (wfB [wq 5 [97] [98]] = true ∧ noHaltB [wq 5 [97] [98]] = true ∧
      wfB [wq 6 [97] [99]] = true) ∧
    (drive [100] [102] none (encLog 1 [] ([wq 5 [97] [98]] ++ [wq 6 [97] [99]]))
      (encLog 1 [] ([wq 5 [97] [98]] ++ [wq 6 [97] [99]])).length 20
      (runSession [100] [102] none (encLog 1 [] [wq 5 [97] [98]]) 20).st).thrown =
      false :=
  ⟨⟨by decide, by decide, by decide⟩,
    (c10_theorem [100] [102] none 1 20 20 [] [wq 5 [97] [98]] [wq 6 [97] [99]]
      (by decide) (by decide) (by decide) (by decide) (by decide) (by decide)
      (by decide)).2.2.2⟩

end Binlog
